import Mathlib

/-!
Verification development for the MultiCodex account-rotation extension.

The definitions below are a shallow embedding of the TypeScript source
(`index.ts`: helpers, storage, `AccountManager`, and the streaming retry
wrapper).  JavaScript time values (epoch milliseconds/seconds, always
integral here) are modelled as `Int`, quota percentages (which can be
fractional, e.g. 12.5) as `ℚ`; `undefined` and optional fields as
`Option`; thrown exceptions as `Except`; `Math.random()` and the network
(token refresh, usage fetch, upstream stream) as explicit oracle
parameters in a `RequestEnv`.  `Date.now()` is modelled as a single
`now : Int` held constant over one logical request.  Truthiness tests on
numbers (`x && ...`) are translated faithfully as explicit `x ≠ 0`
conjuncts.
-/

-- ============================================================
-- Quota error classifier (regex \b429\b|quota|usage limit|rate.?limit|too many requests|limit reached, /i)
-- ============================================================

/-- JS regex word character class `\w` = `[A-Za-z0-9_]`. -/
def isWordChar (c : Char) : Bool := c.isAlphanum || c == '_'

/-- Lower-cased character list of a string (models the regex `/i` flag). -/
def lcList (s : String) : List Char := s.toList.map Char.toLower

/-- Substring search: does `pat` occur contiguously in `l`. -/
def hasSub (pat : List Char) : List Char → Bool
  | [] => pat.isPrefixOf []
  | c :: t => pat.isPrefixOf (c :: t) || hasSub pat t

/-- JS regex `.` : any character except the four line terminators. -/
def dotChar (c : Char) : Bool :=
  !(c == '\n' || c == '\r' || c.val == 8232 || c.val == 8233)

/-- Does `rate.?limit` match starting at the head of `l` (already lower-cased). -/
def rateLimAt (l : List Char) : Bool :=
  "rate".toList.isPrefixOf l &&
    ("limit".toList.isPrefixOf (l.drop 4) ||
      (match l.drop 4 with
       | [] => false
       | c :: t => dotChar c && "limit".toList.isPrefixOf t))

/-- Does `rate.?limit` match anywhere in `l`. -/
def hasRateLim : List Char → Bool
  | [] => false
  | c :: t => rateLimAt (c :: t) || hasRateLim t

/-- Does `\b429\b` match at the head of `l`, where `prevW` says whether the
preceding character (if any) was a word character. -/
def word429At (prevW : Bool) (l : List Char) : Bool :=
  !prevW && "429".toList.isPrefixOf l &&
    (match l.drop 3 with
     | [] => true
     | c :: _ => !isWordChar c)

/-- Does `\b429\b` match anywhere, threading the previous-character class. -/
def has429 : Bool → List Char → Bool
  | _, [] => false
  | prevW, c :: t => word429At prevW (c :: t) || has429 (isWordChar c) t

/-- `isQuotaErrorMessage` from the source: the regex
`/\b429\b|quota|usage limit|rate.?limit|too many requests|limit reached/i`. -/
def isQuotaErrorMessage (message : String) : Bool :=
  let l := lcList message
  has429 false l || hasSub (lcList "quota") l || hasSub (lcList "usage limit") l ||
    hasRateLim l || hasSub (lcList "too many requests") l ||
    hasSub (lcList "limit reached") l

-- ============================================================
-- Usage snapshots and parsing
-- ============================================================

structure CodexUsageWindow where
  usedPercent : Option ℚ
  resetAt : Option Int
deriving DecidableEq

structure CodexUsageSnapshot where
  primary : Option CodexUsageWindow
  secondary : Option CodexUsageWindow
  fetchedAt : Int
deriving DecidableEq

/-- Upstream wham usage window; a non-finite or non-number field is `none`. -/
structure WhamUsageWindow where
  reset_at : Option Int
  used_percent : Option ℚ
deriving DecidableEq

structure WhamRateLimitInfo where
  primary_window : Option WhamUsageWindow
  secondary_window : Option WhamUsageWindow
deriving DecidableEq

structure WhamUsageResponse where
  rate_limit : Option WhamRateLimitInfo
deriving DecidableEq

/-- `Math.min(100, Math.max(0, value))`, written with explicit comparisons
so that it evaluates by kernel reduction. -/
def normalizeUsedPercent (value : Option ℚ) : Option ℚ :=
  value.map (fun v => if v < 0 then 0 else if 100 < v then 100 else v)

def normalizeResetAt (value : Option Int) : Option Int :=
  value.map (fun v => v * 1000)

def parseUsageWindow (window : Option WhamUsageWindow) : Option CodexUsageWindow :=
  match window with
  | none => none
  | some w =>
    let usedPercent := normalizeUsedPercent w.used_percent
    let resetAt := normalizeResetAt w.reset_at
    if usedPercent = none ∧ resetAt = none then none
    else some ⟨usedPercent, resetAt⟩

/-- `parseCodexUsageResponse`: the normalized primary/secondary windows. -/
def parseCodexUsageResponse (data : WhamUsageResponse) :
    Option CodexUsageWindow × Option CodexUsageWindow :=
  (parseUsageWindow (data.rate_limit.bind (fun r => r.primary_window)),
   parseUsageWindow (data.rate_limit.bind (fun r => r.secondary_window)))

def isUsageUntouched (usage : Option CodexUsageSnapshot) : Bool :=
  match usage.bind (fun u => u.primary.bind (fun w => w.usedPercent)),
        usage.bind (fun u => u.secondary.bind (fun w => w.usedPercent)) with
  | some p, some s => decide (p = 0 ∧ s = 0)
  | _, _ => false

def getNextResetAt (usage : Option CodexUsageSnapshot) : Option Int :=
  let candidates :=
    [usage.bind (fun u => u.primary.bind (fun w => w.resetAt)),
     usage.bind (fun u => u.secondary.bind (fun w => w.resetAt))].filterMap id
  match candidates with
  | [] => none
  | c :: rest => some (rest.foldl (fun acc x => if x < acc then x else acc) c)

-- ============================================================
-- Accounts and selection policy
-- ============================================================

structure Account where
  email : String
  accessToken : String
  refreshToken : String
  expiresAt : Int
  accountId : Option String
  lastUsed : Option Int
  quotaExhaustedUntil : Option Int
deriving DecidableEq

/-- `!account.quotaExhaustedUntil || account.quotaExhaustedUntil <= now`
(a zero cooldown timestamp is falsy in JS, hence available). -/
def isAccountAvailable (account : Account) (now : Int) : Bool :=
  match account.quotaExhaustedUntil with
  | none => true
  | some u => decide (u = 0 ∨ u ≤ now)

/-- Map lookup on the usage cache (first binding for the email). -/
def lookupUsage (m : List (String × CodexUsageSnapshot)) (email : String) :
    Option CodexUsageSnapshot :=
  match m with
  | [] => none
  | (k, v) :: t => if k = email then some v else lookupUsage t email

/-- `accounts[Math.floor(Math.random() * accounts.length)]`.  For a draw in
`[0, 1)`, `Math.floor(draw * n)` is exactly an arbitrary index below `n`;
the oracle `randIndex` supplies that index as a function of the length
(an out-of-range index would produce `undefined`, i.e. `none`). -/
def pickRandomAccount (accounts : List Account) (randIndex : Nat → Nat) :
    Option Account :=
  if accounts.isEmpty then none
  else accounts.get? (randIndex accounts.length)

/-- Candidates with a known next reset, stable-sorted ascending, first taken:
equivalently the first element attaining the minimal reset time. -/
def pickEarliestResetAccount (accounts : List Account)
    (usageByEmail : List (String × CodexUsageSnapshot)) : Option Account :=
  let candidates := accounts.filterMap (fun account =>
    (getNextResetAt (lookupUsage usageByEmail account.email)).map
      (fun r => (account, r)))
  match candidates with
  | [] => none
  | c :: rest =>
    some (rest.foldl (fun best x => if x.2 < best.2 then x else best) c).1

/-- `pickBestAccount` from the source, with the random draw explicit. -/
def pickBestAccount (accounts : List Account)
    (usageByEmail : List (String × CodexUsageSnapshot))
    (excludeEmails : List String) (now : Int) (randIndex : Nat → Nat) :
    Option Account :=
  let available := accounts.filter (fun a =>
    isAccountAvailable a now && !excludeEmails.contains a.email)
  if available.isEmpty then none
  else
    let withUsage := available.filter (fun a =>
      (lookupUsage usageByEmail a.email).isSome)
    let untouched := withUsage.filter (fun a =>
      isUsageUntouched (lookupUsage usageByEmail a.email))
    if untouched.isEmpty then
      match pickEarliestResetAccount withUsage usageByEmail with
      | some a => some a
      | none => pickRandomAccount available randIndex
    else
      match pickEarliestResetAccount untouched usageByEmail with
      | some a => some a
      | none => pickRandomAccount untouched randIndex

-- ============================================================
-- Storage and account manager state
-- ============================================================

structure StorageData where
  accounts : List Account
  activeEmail : Option String
deriving DecidableEq

/-- In-memory state of the `AccountManager`: durable `data`, the volatile
usage cache, the log of messages sent to the warning handler, and the
manual-override pin (used only by the spec-modelled manual wrapper). -/
structure ManagerState where
  data : StorageData
  usageCache : List (String × CodexUsageSnapshot)
  warnings : List String
  manualEmail : Option String
deriving DecidableEq

def getAccount (st : StorageData) (email : String) : Option Account :=
  st.accounts.find? (fun a => a.email == email)

/-- Mutating the object returned by `getAccount` updates the first matching
record in the list (emails are unique in practice). -/
def updateFirstAccount (l : List Account) (email : String)
    (f : Account → Account) : List Account :=
  match l with
  | [] => []
  | a :: t => if a.email = email then f a :: t else a :: updateFirstAccount t email f

structure OAuthCredentials where
  access : String
  refresh : String
  expires : Int
  accountId : Option String
deriving DecidableEq

/-- `setActiveAccount(email)`: no-op when unknown; otherwise set the pointer
and stamp `lastUsed = now`. -/
def setActiveAccount (st : ManagerState) (email : String) (now : Int) : ManagerState :=
  match getAccount st.data email with
  | none => st
  | some _ =>
    { st with data :=
        { accounts := updateFirstAccount st.data.accounts email
            (fun a => { a with lastUsed := some now }),
          activeEmail := some email } }

/-- `addOrUpdateAccount(email, creds)` followed by its `setActiveAccount`. -/
def addOrUpdateAccount (st : ManagerState) (email : String)
    (creds : OAuthCredentials) (now : Int) : ManagerState :=
  let st1 :=
    match getAccount st.data email with
    | some _ =>
      { st with data := { st.data with
          accounts := updateFirstAccount st.data.accounts email (fun a =>
            { a with
              accessToken := creds.access,
              refreshToken := creds.refresh,
              expiresAt := creds.expires,
              -- `if (accountId) existing.accountId = accountId` (empty string is falsy)
              accountId := (match creds.accountId with
                | some id => if id = "" then a.accountId else some id
                | none => a.accountId) }) } }
    | none =>
      { st with data := { st.data with
          accounts := st.data.accounts ++
          [{ email := email, accessToken := creds.access,
             refreshToken := creds.refresh, expiresAt := creds.expires,
             accountId := creds.accountId, lastUsed := none,
             quotaExhaustedUntil := none }] } }
  setActiveAccount st1 email now

def markExhausted (st : ManagerState) (email : String) (untilT : Int) : ManagerState :=
  match getAccount st.data email with
  | none => st
  | some _ =>
    { st with data := { st.data with
        accounts := updateFirstAccount st.data.accounts email
          (fun a => { a with quotaExhaustedUntil := some untilT }) } }

/-- `clearExpiredExhaustion(now)`: `if (q && q <= now)` clear (0 is falsy). -/
def clearExpiredExhaustion (st : ManagerState) (now : Int) : ManagerState :=
  { st with data := { st.data with
      accounts := st.data.accounts.map (fun a =>
      match a.quotaExhaustedUntil with
      | some q => if q ≠ 0 ∧ q ≤ now then { a with quotaExhaustedUntil := none } else a
      | none => a) } }

-- ============================================================
-- Request environment (network / randomness / clock oracles)
-- ============================================================

structure TokenRefreshResult where
  access : String
  refresh : String
  expires : Int
  accountId : Option String
deriving DecidableEq

inductive EvKind
  | pieceEv (tag : Nat)
  | doneEv
  | errorEv (errorMessage : String)
  | unknownEv (tag : Nat)
deriving DecidableEq

/-- A response event together with its provenance field. -/
structure Ev where
  kind : EvKind
  provider : String
deriving DecidableEq

/-- `withProvider`: rewrite provenance on partial/done/error events,
leave unrecognized events untouched. -/
def withProvider (e : Ev) (provider : String) : Ev :=
  match e.kind with
  | .pieceEv _ => { e with provider := provider }
  | .doneEv => { e with provider := provider }
  | .errorEv _ => { e with provider := provider }
  | .unknownEv _ => e

/-- Oracles for one logical request: the clock, the random draw, the logical
provider identity of the model, the token-refresh endpoint (keyed by refresh
token; `Except.error` models a thrown exception), the usage endpoint (keyed
by email, yielding the parsed windows), and the upstream stream produced for
each attempt index. -/
structure RequestEnv where
  now : Int
  randIndex : Nat → Nat
  modelProvider : String
  refreshTok : String → Except String TokenRefreshResult
  usageFetch : String → Except String (Option CodexUsageWindow × Option CodexUsageWindow)
  streams : Nat → List Ev

def USAGE_CACHE_TTL_MS : Int := 5 * 60 * 1000

def USAGE_REQUEST_TIMEOUT_MS : Int := 10 * 1000

def QUOTA_COOLDOWN_MS : Int := 60 * 60 * 1000

def MAX_ROTATION_RETRIES : Nat := 5

-- ============================================================
-- Account manager operations
-- ============================================================

/-- `ensureValidToken(account)`.  The source mutates the account object that
aliases the store record, so the model re-reads the store version first.
Returns the new state, the token (or the thrown message), and whether a
network refresh was attempted. -/
def ensureValidToken (env : RequestEnv) (st : ManagerState) (account : Account) :
    ManagerState × Except String String × Bool :=
  let a := (getAccount st.data account.email).getD account
  if env.now < a.expiresAt - 5 * 60 * 1000 then (st, .ok a.accessToken, false)
  else
    match env.refreshTok a.refreshToken with
    | .error m => (st, .error m, true)
    | .ok result =>
      let st1 := { st with data := { st.data with
          accounts := updateFirstAccount st.data.accounts a.email (fun a0 =>
            { a0 with
              accessToken := result.access,
              refreshToken := result.refresh,
              expiresAt := result.expires,
              accountId := (match result.accountId with
                | some id => if id = "" then a0.accountId else some id
                | none => a0.accountId) }) } }
      (st1, .ok result.access, true)

def usageWarning (email m : String) : String :=
  "Multicodex: failed to fetch usage for " ++ email ++ ": " ++ m

/-- Cache write (`Map.set`). -/
def cacheSet (m : List (String × CodexUsageSnapshot)) (email : String)
    (snap : CodexUsageSnapshot) : List (String × CodexUsageSnapshot) :=
  match m with
  | [] => [(email, snap)]
  | (k, v) :: t => if k = email then (email, snap) :: t else (k, v) :: cacheSet t email snap

/-- The try-block of `refreshUsageForAccount`: token, fetch, cache store;
any throw is caught, warned about, and turned into `none`. -/
def refreshFetch (env : RequestEnv) (st : ManagerState) (a : Account) :
    ManagerState × Option CodexUsageSnapshot :=
  match ensureValidToken env st a with
  | (st1, .error m, _) =>
    ({ st1 with warnings := st1.warnings ++ [usageWarning a.email m] }, none)
  | (st1, .ok _token, _) =>
    match env.usageFetch a.email with
    | .error m =>
      ({ st1 with warnings := st1.warnings ++ [usageWarning a.email m] }, none)
    | .ok (p, s) =>
      let snap : CodexUsageSnapshot := ⟨p, s, env.now⟩
      ({ st1 with usageCache := cacheSet st1.usageCache a.email snap }, some snap)

/-- `refreshUsageForAccount(account, {force})`. -/
def refreshUsageForAccount (env : RequestEnv) (st : ManagerState)
    (account : Account) (force : Bool) : ManagerState × Option CodexUsageSnapshot :=
  let a := (getAccount st.data account.email).getD account
  match lookupUsage st.usageCache a.email with
  | some cached =>
    if !force && decide (env.now - cached.fetchedAt < USAGE_CACHE_TTL_MS)
    then (st, some cached)
    else refreshFetch env st a
  | none => refreshFetch env st a

/-- `refreshUsageIfStale(accounts)`: refresh (force) every account whose
cached snapshot is absent or at least TTL old.  The source fans out in
parallel; per-account effects are independent, modelled sequentially. -/
def refreshUsageIfStale (env : RequestEnv) (st : ManagerState)
    (accounts : List Account) : ManagerState :=
  let stale := accounts.filter (fun a =>
    match lookupUsage st.usageCache a.email with
    | none => true
    | some c => decide (USAGE_CACHE_TTL_MS ≤ env.now - c.fetchedAt))
  stale.foldl (fun acc a => (refreshUsageForAccount env acc a true).1) st

/-- `activateBestAccount({excludeEmails})`. -/
def activateBestAccount (env : RequestEnv) (st : ManagerState)
    (excludeEmails : List String) : Option Account × ManagerState :=
  let st1 := clearExpiredExhaustion st env.now
  let st2 := refreshUsageIfStale env st1 st1.data.accounts
  match pickBestAccount st2.data.accounts st2.usageCache excludeEmails env.now env.randIndex with
  | some a => (some a, setActiveAccount st2 a.email env.now)
  | none => (none, st2)

/-- `handleQuotaExceeded(account)`:
`until = resetAt && resetAt > now ? resetAt : fallback` (0 is falsy). -/
def handleQuotaExceeded (env : RequestEnv) (st : ManagerState)
    (account : Account) : ManagerState :=
  let out := refreshUsageForAccount env st account true
  let resetAt := getNextResetAt out.2
  let fallback := env.now + QUOTA_COOLDOWN_MS
  let untilT := match resetAt with
    | some r => if r ≠ 0 ∧ env.now < r then r else fallback
    | none => fallback
  markExhausted out.1 account.email untilT

-- ============================================================
-- Streaming retry wrapper (createStreamWrapper)
-- ============================================================

/-- Result of consuming one attempt's inner stream: either a retry decision
or normal termination, each carrying the events pushed to the caller. -/
inductive ConsumeOut
  | retryOut (pushed : List Ev)
  | endOut (pushed : List Ev)
deriving DecidableEq

/-- The `for await (const event of inner)` loop of one attempt.
`forwardedAny` starts false; `canRetry` is `attempt < MAX_ROTATION_RETRIES`. -/
def consumeInner (provider : String) (canRetry : Bool) :
    List Ev → Bool → ConsumeOut
  | [], _ => .endOut []
  | e :: rest, forwardedAny =>
    match e.kind with
    | .errorEv msg =>
      if isQuotaErrorMessage msg && !forwardedAny && canRetry then .retryOut []
      else .endOut [withProvider e provider]
    | .doneEv => .endOut [withProvider e provider]
    | _ =>
      match consumeInner provider canRetry rest true with
      | .retryOut pushed => .retryOut (withProvider e provider :: pushed)
      | .endOut pushed => .endOut (withProvider e provider :: pushed)

def noAccountsMessage : String :=
  "No available Multicodex accounts. Please use /multicodex-login."

/-- The top-level catch: a synthetic error event built by
`createErrorAssistantMessage` and pushed through `withProvider`. -/
def mkCatchErrorEvent (provider message : String) : Ev :=
  { kind := .errorEv ("Multicodex failed: " ++ message), provider := provider }

/-- Observable outcome of (the tail of) the attempt loop: events pushed to
the caller stream, final manager state, loop iterations performed, the
`X-Multicodex-Account` header of every upstream invocation, and whether the
`for` loop fell through without ending the caller stream (which would hang
the caller; provably unreachable). -/
structure RunOut where
  events : List Ev
  state : ManagerState
  attemptsUsed : Nat
  headers : List String
  fellThrough : Bool
deriving DecidableEq

/-- The attempt loop of `createStreamWrapper`, with `r` attempts remaining
(the current one included); the current attempt index is
`MAX_ROTATION_RETRIES + 1 - r`, so retrying is allowed iff `0 < r`
after decrementing, i.e. the source's `attempt < MAX_ROTATION_RETRIES`. -/
def runFrom (env : RequestEnv) : Nat → ManagerState → List String → RunOut
  | 0, st, _ => ⟨[], st, 0, [], true⟩
  | r + 1, st, excludedEmails =>
    match activateBestAccount env st excludedEmails with
    | (none, st1) =>
      ⟨[mkCatchErrorEvent env.modelProvider noAccountsMessage], st1, 1, [], false⟩
    | (some account, st1) =>
      match ensureValidToken env st1 account with
      | (st2, .error m, _) => ⟨[mkCatchErrorEvent env.modelProvider m], st2, 1, [], false⟩
      | (st2, .ok _token, _) =>
        let inner := env.streams (MAX_ROTATION_RETRIES - r)
        match consumeInner env.modelProvider (decide (0 < r)) inner false with
        | .endOut pushed => ⟨pushed, st2, 1, [account.email], false⟩
        | .retryOut pushed =>
          let st3 := handleQuotaExceeded env st2
            ((getAccount st2.data account.email).getD account)
          let restOut := runFrom env r st3 (account.email :: excludedEmails)
          ⟨pushed ++ restOut.events, restOut.state, restOut.attemptsUsed + 1,
           account.email :: restOut.headers, restOut.fellThrough⟩

/-- One logical request: the full loop `attempt = 0 .. MAX_ROTATION_RETRIES`
starting from an empty exclusion set. -/
def runRequest (env : RequestEnv) (st : ManagerState) : RunOut :=
  runFrom env (MAX_ROTATION_RETRIES + 1) st []

-- ============================================================
-- Manual-override wrapper (modelled from the spec)
-- ============================================================

/-- Modelled from the spec: `getAvailableManualAccount()` of the account
manager's manual-override pin — the implementation is not under src (only
`index.test.ts` exercises it).  Spec 4.5: returns the manually pinned
account only if it exists and is currently available (not exhausted). -/
def getAvailableManualAccount (st : ManagerState) (now : Int) : Option Account :=
  match st.manualEmail with
  | none => none
  | some e =>
    match getAccount st.data e with
    | none => none
    | some a => if isAccountAvailable a now then some a else none

/-- Modelled from the spec: `clearManualAccount()` drops the pin. -/
def clearManualAccount (st : ManagerState) : ManagerState :=
  { st with manualEmail := none }

/-- Outcome of the manual-aware attempt loop; `activateCalls` counts the
invocations of automatic selection (`activateBestAccount`). -/
structure ManualRunOut where
  events : List Ev
  state : ManagerState
  attemptsUsed : Nat
  headers : List String
  activateCalls : Nat
deriving DecidableEq

/-- Modelled from the spec: the attempt loop of the streaming retry wrapper
with manual-override support, which is not under src (only its tests are).
Spec 4.6 step 1: if a manual override is pinned and currently available,
use it without touching automatic selection or usage refresh; otherwise
call `activateBest` excluding every email that already failed this request.
On a retry-eligible quota failure the account is marked quota-exceeded,
excluded, and, if it was the manual pin, the pin is cleared. -/
def runFromManual (env : RequestEnv) : Nat → ManagerState → List String → ManualRunOut
  | 0, st, _ => ⟨[], st, 0, [], 0⟩
  | r + 1, st, excludedEmails =>
    match getAvailableManualAccount st env.now with
    | some account =>
      match ensureValidToken env st account with
      | (st2, .error m, _) => ⟨[mkCatchErrorEvent env.modelProvider m], st2, 1, [], 0⟩
      | (st2, .ok _token, _) =>
        match consumeInner env.modelProvider (decide (0 < r))
            (env.streams (MAX_ROTATION_RETRIES - r)) false with
        | .endOut pushed => ⟨pushed, st2, 1, [account.email], 0⟩
        | .retryOut pushed =>
          let st3 := handleQuotaExceeded env st2
            ((getAccount st2.data account.email).getD account)
          let st4 := if st3.manualEmail = some account.email
            then clearManualAccount st3 else st3
          let restOut := runFromManual env r st4 (account.email :: excludedEmails)
          ⟨pushed ++ restOut.events, restOut.state, restOut.attemptsUsed + 1,
           account.email :: restOut.headers, restOut.activateCalls⟩
    | none =>
      match activateBestAccount env st excludedEmails with
      | (none, st1) =>
        ⟨[mkCatchErrorEvent env.modelProvider noAccountsMessage], st1, 1, [], 1⟩
      | (some account, st1) =>
        match ensureValidToken env st1 account with
        | (st2, .error m, _) =>
          ⟨[mkCatchErrorEvent env.modelProvider m], st2, 1, [], 1⟩
        | (st2, .ok _token, _) =>
          match consumeInner env.modelProvider (decide (0 < r))
              (env.streams (MAX_ROTATION_RETRIES - r)) false with
          | .endOut pushed => ⟨pushed, st2, 1, [account.email], 1⟩
          | .retryOut pushed =>
            let st3 := handleQuotaExceeded env st2
              ((getAccount st2.data account.email).getD account)
            let st4 := if st3.manualEmail = some account.email
              then clearManualAccount st3 else st3
            let restOut := runFromManual env r st4 (account.email :: excludedEmails)
            ⟨pushed ++ restOut.events, restOut.state, restOut.attemptsUsed + 1,
             account.email :: restOut.headers, restOut.activateCalls + 1⟩

-- ============================================================
-- Spec-side predicates used in theorem statements
-- ============================================================

/-- Word-class of the character immediately preceding the position reached
after reading `a`, starting from class `prev` (models the regex `\b`). -/
def prevWordAfter (prev : Bool) : List Char → Bool
  | [] => prev
  | c :: t => prevWordAfter (isWordChar c) t

/-- `s` contains `429` delimited by word boundaries on both sides
(the meaning of `\b429\b` on the lower-cased text). -/
def Word429Occurrence (s : String) : Prop :=
  ∃ a b, lcList s = a ++ "429".toList ++ b ∧ prevWordAfter false a = false ∧
    (b = [] ∨ ∃ c b2, b = c :: b2 ∧ isWordChar c = false)

/-- The claim-side availability test: cooldown absent or not after `now`,
and not excluded for this request. -/
def availableNotExcluded (a : Account) (excl : List String) (now : Int) : Prop :=
  (a.quotaExhaustedUntil = none ∨ ∃ u, a.quotaExhaustedUntil = some u ∧ u ≤ now) ∧
    a.email ∉ excl

/-- The bookkeeping a retried attempt adds in front of the continuation:
one more loop iteration and its upstream invocation header. -/
def prependAttempt (email : String) (out : RunOut) : RunOut :=
  ⟨out.events, out.state, out.attemptsUsed + 1, email :: out.headers, out.fellThrough⟩

/-- Same bookkeeping for the manual-override wrapper. -/
def prependAttemptManual (email : String) (out : ManualRunOut) : ManualRunOut :=
  ⟨out.events, out.state, out.attemptsUsed + 1, email :: out.headers, out.activateCalls⟩

/-- The rational 12.5 written with explicit numerator/denominator so that
concrete evaluations reduce by `decide`. -/
def twelvePointFive : ℚ := ⟨25, 2, by decide, by decide⟩

/-- The available, non-excluded accounts (the selection's first filter). -/
def availList (accounts : List Account) (excl : List String) (now : Int) :
    List Account :=
  accounts.filter (fun a => isAccountAvailable a now && !excl.contains a.email)

/-- The available, non-excluded, untouched accounts. -/
def untouchedList (accounts : List Account)
    (usage : List (String × CodexUsageSnapshot)) (excl : List String)
    (now : Int) : List Account :=
  (availList accounts excl now).filter
    (fun a => isUsageUntouched (lookupUsage usage a.email))

-- Concrete fixtures used by witnesses and counterexamples.

/-- Fixture: an untouched account (0 % in both windows) with no known reset. -/
def cexAcctA : Account := ⟨"a", "t", "r", 0, none, none, none⟩

/-- Fixture: an available account with no usage data at all. -/
def cexAcctB : Account := ⟨"b", "t", "r", 0, none, none, none⟩

/-- Fixture usage cache: only `a` has a snapshot, untouched, no reset times. -/
def cexUsage : List (String × CodexUsageSnapshot) :=
  [("a", ⟨some ⟨some 0, none⟩, some ⟨some 0, none⟩, 0⟩)]

/-- Fixture account with a token far from expiry. -/
def w5Acct : Account := ⟨"a", "t", "r", 10000000, none, none, none⟩

/-- Fixture manager state holding only `w5Acct`, empty cache. -/
def w5State : ManagerState := ⟨⟨[w5Acct], none⟩, [], [], none⟩

/-- Fixture environment whose usage endpoint reports a future reset at 5000. -/
def w5Env : RequestEnv :=
  ⟨0, fun _ => 0, "multicodex", fun _ => .error "down",
   fun _ => .ok (some ⟨some 10, some 5⟩, none), fun _ => []⟩

/-- Fixture account for the usage-fetch failure scenario. -/
def c6Acct : Account := ⟨"a", "t", "r", 10000000, none, none, none⟩

/-- Fixture cached snapshot present before the failing refresh. -/
def c6Snap : CodexUsageSnapshot := ⟨some ⟨some 50, some 111⟩, none, 0⟩

/-- Fixture manager state with a cached snapshot for `a`. -/
def c6State : ManagerState := ⟨⟨[c6Acct], none⟩, [("a", c6Snap)], [], none⟩

/-- Fixture environment whose usage endpoint always fails. -/
def c6Env : RequestEnv :=
  ⟨0, fun _ => 0, "multicodex", fun _ => .error "refresh-down",
   fun _ => .error "usage-down", fun _ => []⟩

/-- Fixture accounts for the wrapper scenarios. -/
def wrapAcctA : Account := ⟨"a", "t", "r", 10000000, none, none, none⟩

/-- Second fixture account for the wrapper scenarios. -/
def wrapAcctB : Account := ⟨"b", "t", "r", 10000000, none, none, none⟩

/-- Fixture pool of two fresh accounts. -/
def wrapState : ManagerState := ⟨⟨[wrapAcctA, wrapAcctB], none⟩, [], [], none⟩

/-- Fixture request environment: attempt 0 hits a quota error, later
attempts complete; network oracles fail so no usage/reset is learned. -/
def wrapEnv : RequestEnv :=
  ⟨0, fun _ => 0, "multicodex", fun _ => .error "no refresh",
   fun _ => .error "no usage",
   fun k => if k = 0 then [⟨.errorEv "quota exceeded", "openai-codex"⟩]
            else [⟨.doneEv, "openai-codex"⟩]⟩

/-- Fixture: an empty pool. -/
def emptyState : ManagerState := ⟨⟨[], none⟩, [], [], none⟩

/-- Fixture: a pool whose only account has an expired token. -/
def tokFailState : ManagerState :=
  ⟨⟨[⟨"a", "t", "r", 0, none, none, none⟩], none⟩, [], [], none⟩

/-- `tokFailState` after the selection step of one attempt (usage fetch
failed with a warning, the account was activated and stamped). -/
def tokFailAfter : ManagerState :=
  ⟨⟨[⟨"a", "t", "r", 0, none, some 0, none⟩], some "a"⟩, [],
   ["Multicodex: failed to fetch usage for a: no refresh"], none⟩

/-- Fixture environment whose upstream stream yields partial output and
then a quota error on every attempt. -/
def wrapEnv2 : RequestEnv :=
  ⟨0, fun _ => 0, "multicodex", fun _ => .error "no refresh",
   fun _ => .error "no usage",
   fun _ => [⟨.pieceEv 7, "openai-codex"⟩,
             ⟨.errorEv "quota exceeded", "openai-codex"⟩]⟩

/-- `wrapState` after the selection step of the first attempt under
`wrapEnv2` (usage fetches failed with warnings, `a` activated). -/
def wrapStateSel : ManagerState :=
  ⟨⟨[⟨"a", "t", "r", 10000000, none, some 0, none⟩, wrapAcctB], some "a"⟩, [],
   [usageWarning "a" "no usage", usageWarning "b" "no usage"], none⟩

/-- Fixture manually pinned account. -/
def manAcct : Account := ⟨"manual", "t", "r", 10000000, none, none, none⟩

/-- Fixture state with `manAcct` pinned as the manual override. -/
def manState : ManagerState := ⟨⟨[manAcct], none⟩, [], [], some "manual"⟩

/-- Fixture environment: the first attempt hits a quota error. -/
def manEnv : RequestEnv :=
  ⟨0, fun _ => 0, "multicodex", fun _ => .error "no refresh",
   fun _ => .error "no usage",
   fun k => if k = 0 then [⟨.errorEv "quota exceeded", "openai-codex"⟩]
            else [⟨.doneEv, "openai-codex"⟩]⟩

-- ============================================================
-- Lemmas about the quota classifier
-- ============================================================

theorem hasSub_of_isPrefixOf (pat : List Char) (a x : List Char)
    (h : pat.isPrefixOf x = true) : hasSub pat (a ++ x) = true := by
  induction a with
  | nil =>
    cases x with
    | nil => simpa [hasSub] using h
    | cons c t => simp [hasSub, h]
  | cons c t ih => simp [hasSub, ih]

theorem hasSub_of_occurrence (pat l : List Char) (h : pat <:+: l) :
    hasSub pat l = true := by
  obtain ⟨s, t, rfl⟩ := h
  rw [List.append_assoc]
  exact hasSub_of_isPrefixOf pat s (pat ++ t)
    (List.isPrefixOf_iff_prefix.2 (List.prefix_append pat t))

theorem hasRateLim_of_at (a x : List Char) (h : rateLimAt x = true) :
    hasRateLim (a ++ x) = true := by
  induction a with
  | nil =>
    cases x with
    | nil => simp [rateLimAt] at h
    | cons c t => simp [hasRateLim, h]
  | cons c t ih => simp [hasRateLim, ih]

theorem has429_of_at (a x : List Char) :
    ∀ prev, word429At (prevWordAfter prev a) x = true →
      has429 prev (a ++ x) = true := by
  induction a with
  | nil =>
    intro prev h
    cases x with
    | nil => simp [word429At] at h
    | cons c t => simp [has429, prevWordAfter] at h ⊢; exact Or.inl h
  | cons c t ih =>
    intro prev h
    simp only [List.cons_append, has429]
    have := ih (isWordChar c) h
    simp [this]

theorem rateLimAt_space (b : List Char) :
    rateLimAt ('r' :: 'a' :: 't' :: 'e' :: ' ' :: 'l' :: 'i' :: 'm' :: 'i' :: 't' :: b) = true := by
  simp [rateLimAt, dotChar, List.isPrefixOf]

theorem rateLimAt_hyphen (b : List Char) :
    rateLimAt ('r' :: 'a' :: 't' :: 'e' :: '-' :: 'l' :: 'i' :: 'm' :: 'i' :: 't' :: b) = true := by
  simp [rateLimAt, dotChar, List.isPrefixOf]

theorem word429At_boundary (prev : Bool) (b : List Char)
    (hp : prev = false)
    (hb : b = [] ∨ ∃ c b2, b = c :: b2 ∧ isWordChar c = false) :
    word429At prev ('4' :: '2' :: '9' :: b) = true := by
  subst hp
  rcases hb with rfl | ⟨c, b2, rfl, hc⟩
  · simp [word429At, List.isPrefixOf]
  · simp [word429At, List.isPrefixOf, hc]

/-- C7 (amended): the classifier returns true for every string containing
`quota`, `usage limit`, `rate limit`, `rate-limit`, `too many requests`, or
`limit reached` case-insensitively, and for every string containing `429`
as a whole word (delimited by word boundaries, as the source's `\b429\b`
requires); it returns false on "network error" and "bad request". -/
theorem isQuotaErrorMessage_classifier :
    (∀ s : String,
      (lcList "quota" <:+: lcList s ∨
       lcList "usage limit" <:+: lcList s ∨
       lcList "rate limit" <:+: lcList s ∨
       lcList "rate-limit" <:+: lcList s ∨
       lcList "too many requests" <:+: lcList s ∨
       lcList "limit reached" <:+: lcList s ∨
       Word429Occurrence s) → isQuotaErrorMessage s = true) ∧
    isQuotaErrorMessage "network error" = false ∧
    isQuotaErrorMessage "bad request" = false := by
  refine ⟨fun s h => ?_, by decide, by decide⟩
  unfold isQuotaErrorMessage
  simp only [Bool.or_eq_true]
  rcases h with h | h | h | h | h | h | h
  · exact Or.inl (Or.inl (Or.inl (Or.inl (Or.inr (hasSub_of_occurrence _ _ h)))))
  · exact Or.inl (Or.inl (Or.inl (Or.inr (hasSub_of_occurrence _ _ h))))
  · obtain ⟨u, v, heq⟩ := h
    have heq2 : lcList s =
        u ++ ('r' :: 'a' :: 't' :: 'e' :: ' ' :: 'l' :: 'i' :: 'm' :: 'i' :: 't' :: v) := by
      rw [← heq, List.append_assoc]; rfl
    refine Or.inl (Or.inl (Or.inr ?_))
    rw [heq2]
    exact hasRateLim_of_at u _ (rateLimAt_space v)
  · obtain ⟨u, v, heq⟩ := h
    have heq2 : lcList s =
        u ++ ('r' :: 'a' :: 't' :: 'e' :: '-' :: 'l' :: 'i' :: 'm' :: 'i' :: 't' :: v) := by
      rw [← heq, List.append_assoc]; rfl
    refine Or.inl (Or.inl (Or.inr ?_))
    rw [heq2]
    exact hasRateLim_of_at u _ (rateLimAt_hyphen v)
  · exact Or.inl (Or.inr (hasSub_of_occurrence _ _ h))
  · exact Or.inr (hasSub_of_occurrence _ _ h)
  · obtain ⟨a, b, heq, hprev, hb⟩ := h
    have heq2 : lcList s = a ++ ('4' :: '2' :: '9' :: b) := by
      rw [heq, List.append_assoc]; rfl
    refine Or.inl (Or.inl (Or.inl (Or.inl (Or.inl ?_))))
    rw [heq2]
    refine has429_of_at a _ false ?_
    rw [hprev]
    exact word429At_boundary false b rfl hb

/-- C7 counterexample: "x4290" contains the substring `429` but the
classifier returns false, because the source regex requires `\b429\b`
(word boundaries), refuting the claim as stated. -/
theorem isQuotaErrorMessage_contains429_counterexample :
    (lcList "429" <:+: lcList "x4290") ∧ isQuotaErrorMessage "x4290" = false :=
  ⟨⟨['x'], ['0'], by decide⟩, by decide⟩

/-- Witness for C7: the amended theorem applied at concrete inputs. -/
theorem isQuotaErrorMessage_classifier_witness :
    isQuotaErrorMessage "Usage Limit" = true ∧
    isQuotaErrorMessage "HTTP 429 Too Many Requests" = true ∧
    isQuotaErrorMessage "network error" = false ∧
    isQuotaErrorMessage "bad request" = false :=
  ⟨isQuotaErrorMessage_classifier.1 "Usage Limit"
      (Or.inr (Or.inl ⟨[], [], by decide⟩)),
   isQuotaErrorMessage_classifier.1 "HTTP 429 Too Many Requests"
      (Or.inr (Or.inr (Or.inr (Or.inr (Or.inl ⟨"http 429 ".toList, [], by decide⟩))))),
   isQuotaErrorMessage_classifier.2.1,
   isQuotaErrorMessage_classifier.2.2⟩

-- ============================================================
-- C8: usage response parsing and normalization
-- ============================================================

theorem twelvePointFive_eq : twelvePointFive = 12.5 := by
  rw [show twelvePointFive = Rat.divInt 25 2 from Rat.mk'_eq_divInt, Rat.divInt_eq_div]
  norm_num

/-- C8: each upstream window is normalized by clamping `used_percent` into
[0, 100] and converting `reset_at` from epoch seconds to milliseconds; the
input window with reset 1700000000 s and 12.5 % yields 1700000000000 ms and
12.5 %, and a window with both fields absent parses to an absent window. -/
theorem parseCodexUsageResponse_normalization :
    (∀ (w : WhamUsageWindow) (p : ℚ), w.used_percent = some p →
      ∃ win, parseUsageWindow (some w) = some win ∧
        win.usedPercent = some (if p < 0 then 0 else if 100 < p then 100 else p) ∧
        (∀ q, win.usedPercent = some q → 0 ≤ q ∧ q ≤ 100)) ∧
    (∀ (w : WhamUsageWindow) (sec : Int), w.reset_at = some sec →
      ∃ win, parseUsageWindow (some w) = some win ∧ win.resetAt = some (sec * 1000)) ∧
    parseUsageWindow (some ⟨none, none⟩) = none ∧
    parseCodexUsageResponse
        ⟨some ⟨some ⟨some 1700000000, some twelvePointFive⟩, none⟩⟩ =
      (some ⟨some twelvePointFive, some 1700000000000⟩, none) := by
  refine ⟨?_, ?_, by decide, by decide⟩
  · intro w p hp
    refine ⟨⟨normalizeUsedPercent w.used_percent, normalizeResetAt w.reset_at⟩, ?_, ?_, ?_⟩
    · simp [parseUsageWindow, normalizeUsedPercent, hp]
    · simp [normalizeUsedPercent, hp]
    · intro q hq
      simp only [normalizeUsedPercent, hp, Option.map_some', Option.some_inj] at hq
      subst hq
      constructor
      · split_ifs with h1 h2 <;> linarith
      · split_ifs with h1 h2 <;> linarith
  · intro w sec hsec
    refine ⟨⟨normalizeUsedPercent w.used_percent, normalizeResetAt w.reset_at⟩, ?_, ?_⟩
    · simp [parseUsageWindow, normalizeResetAt, hsec]
    · simp [normalizeResetAt, hsec]

/-- Witness for C8 at concrete windows (out-of-range 150 % is clamped to
100; a 3-second reset becomes 3000 ms). -/
theorem parseCodexUsageResponse_normalization_witness :
    (∃ win, parseUsageWindow (some ⟨some 1700000000, some 150⟩) = some win ∧
      win.usedPercent = some (if (150 : ℚ) < 0 then 0 else if 100 < (150 : ℚ) then 100 else 150) ∧
      (∀ q, win.usedPercent = some q → 0 ≤ q ∧ q ≤ 100)) ∧
    (∃ win, parseUsageWindow (some ⟨some 3, none⟩) = some win ∧ win.resetAt = some 3000) :=
  ⟨parseCodexUsageResponse_normalization.1 ⟨some 1700000000, some 150⟩ 150 rfl,
   parseCodexUsageResponse_normalization.2.1 ⟨some 3, none⟩ 3 rfl⟩

-- ============================================================
-- Lemmas about the selection policy
-- ============================================================

theorem isAccountAvailable_iff (a : Account) (now : Int) (hnow : 0 ≤ now) :
    isAccountAvailable a now = true ↔
      (a.quotaExhaustedUntil = none ∨
        ∃ u, a.quotaExhaustedUntil = some u ∧ u ≤ now) := by
  cases h : a.quotaExhaustedUntil with
  | none => simp [isAccountAvailable, h]
  | some u =>
    simp only [isAccountAvailable, h, decide_eq_true_eq]
    constructor
    · rintro (rfl | hu)
      · exact Or.inr ⟨0, rfl, hnow⟩
      · exact Or.inr ⟨u, rfl, hu⟩
    · rintro (h2 | ⟨u2, h2, hu2⟩)
      · exact absurd h2 (by simp)
      · cases Option.some_inj.mp h2; exact Or.inr hu2

theorem mem_availList_iff (accounts : List Account) (excl : List String)
    (now : Int) (hnow : 0 ≤ now) (a : Account) :
    a ∈ availList accounts excl now ↔
      a ∈ accounts ∧ availableNotExcluded a excl now := by
  simp only [availList, List.mem_filter, Bool.and_eq_true, Bool.not_eq_true',
    availableNotExcluded, isAccountAvailable_iff a now hnow]
  constructor
  · rintro ⟨hm, hav, hex⟩
    refine ⟨hm, hav, ?_⟩
    simpa using hex
  · rintro ⟨hm, hav, hex⟩
    refine ⟨hm, hav, ?_⟩
    simpa using hex

theorem pickRandomAccount_mem (l : List Account) (ri : Nat → Nat)
    (hri : ∀ n, 0 < n → ri n < n) (hl : l ≠ []) :
    ∃ a, pickRandomAccount l ri = some a ∧ a ∈ l := by
  have hlen : 0 < l.length := List.length_pos.mpr hl
  have hidx : ri l.length < l.length := hri _ hlen
  refine ⟨l.get ⟨ri l.length, hidx⟩, ?_, List.get_mem l _ hidx⟩
  simp only [pickRandomAccount, List.isEmpty_iff]
  rw [if_neg hl]
  exact List.get?_eq_get hidx

theorem argmin_foldl_spec (c : Account × Int) (rest : List (Account × Int)) :
    (rest.foldl (fun best x => if x.2 < best.2 then x else best) c) ∈ c :: rest ∧
      ∀ x ∈ c :: rest,
        (rest.foldl (fun best x => if x.2 < best.2 then x else best) c).2 ≤ x.2 := by
  induction rest generalizing c with
  | nil => simp
  | cons y rest ih =>
    simp only [List.foldl_cons]
    obtain ⟨ihMem, ihLe⟩ := ih (if y.2 < c.2 then y else c)
    constructor
    · rcases List.mem_cons.mp ihMem with h | h
      · rw [h]
        split_ifs
        · exact List.mem_cons_of_mem _ (List.mem_cons_self _ _)
        · exact List.mem_cons_self _ _
      · exact List.mem_cons_of_mem _ (List.mem_cons_of_mem _ h)
    · intro x hx
      rcases List.mem_cons.mp hx with rfl | hx2
      · refine le_trans (ihLe _ (List.mem_cons_self _ _)) ?_
        split_ifs with hlt
        · exact le_of_lt hlt
        · exact le_refl _
      rcases List.mem_cons.mp hx2 with rfl | hx3
      · refine le_trans (ihLe _ (List.mem_cons_self _ _)) ?_
        split_ifs with hlt
        · exact le_refl _
        · exact le_of_not_lt hlt
      · exact ihLe x (List.mem_cons_of_mem _ hx3)

theorem pickEarliestResetAccount_eq_none_iff (l : List Account)
    (usage : List (String × CodexUsageSnapshot)) :
    pickEarliestResetAccount l usage = none ↔
      ∀ a ∈ l, getNextResetAt (lookupUsage usage a.email) = none := by
  unfold pickEarliestResetAccount
  rcases h : l.filterMap (fun account =>
      (getNextResetAt (lookupUsage usage account.email)).map
        (fun r => (account, r))) with _ | ⟨c, rest⟩
  · rw [h]
    simp only [true_iff]
    intro a ha
    have hnil := List.filterMap_eq_nil_iff.mp h a ha
    simpa using hnil
  · rw [h]
    simp only [reduceCtorEq, false_iff, not_forall]
    have hc : c ∈ l.filterMap (fun account =>
        (getNextResetAt (lookupUsage usage account.email)).map
          (fun r => (account, r))) := by rw [h]; exact List.mem_cons_self _ _
    obtain ⟨a, ha, hfa⟩ := List.mem_filterMap.mp hc
    refine ⟨a, ha, ?_⟩
    intro hnone
    rw [hnone] at hfa
    simp at hfa

theorem pickEarliestResetAccount_spec (l : List Account)
    (usage : List (String × CodexUsageSnapshot)) (a : Account)
    (h : pickEarliestResetAccount l usage = some a) :
    a ∈ l ∧ ∃ r, getNextResetAt (lookupUsage usage a.email) = some r ∧
      ∀ b ∈ l, ∀ r2, getNextResetAt (lookupUsage usage b.email) = some r2 →
        r ≤ r2 := by
  unfold pickEarliestResetAccount at h
  rcases hcand : l.filterMap (fun account =>
      (getNextResetAt (lookupUsage usage account.email)).map
        (fun r => (account, r))) with _ | ⟨c, rest⟩
  · rw [hcand] at h; simp at h
  · rw [hcand] at h
    simp only [Option.some_inj] at h
    obtain ⟨hmem, hle⟩ := argmin_foldl_spec c rest
    set p := rest.foldl (fun best x => if x.2 < best.2 then x else best) c with hp
    have hpc : p ∈ l.filterMap (fun account =>
        (getNextResetAt (lookupUsage usage account.email)).map
          (fun r => (account, r))) := by rw [hcand]; exact hmem
    obtain ⟨a0, ha0, hfa0⟩ := List.mem_filterMap.mp hpc
    rcases hreset : getNextResetAt (lookupUsage usage a0.email) with _ | r0
    · rw [hreset] at hfa0; simp at hfa0
    · rw [hreset] at hfa0
      simp only [Option.map_some', Option.some_inj] at hfa0
      have hpa : a = a0 := by rw [← h, ← hfa0]
      subst hpa
      have hp2 : p.2 = r0 := by rw [← hfa0]
      refine ⟨ha0, r0, hreset, ?_⟩
      intro b hb r2 hr2
      have hbc : (b, r2) ∈ l.filterMap (fun account =>
          (getNextResetAt (lookupUsage usage account.email)).map
            (fun r => (account, r))) :=
        List.mem_filterMap.mpr ⟨b, hb, by rw [hr2]; rfl⟩
      rw [hcand] at hbc
      have hler := hle _ hbc
      rw [hp2] at hler
      exact hler

theorem untouchedList_eq_inner (accounts : List Account)
    (usage : List (String × CodexUsageSnapshot)) (excl : List String) (now : Int) :
    ((availList accounts excl now).filter (fun a =>
        (lookupUsage usage a.email).isSome)).filter (fun a =>
        isUsageUntouched (lookupUsage usage a.email)) =
      untouchedList accounts usage excl now := by
  unfold untouchedList
  rw [List.filter_filter]
  congr 1
  funext a
  cases hl : lookupUsage usage a.email with
  | none => simp [isUsageUntouched, hl]
  | some snap => simp [hl]

/-- C3 (amended): the selection policy returns no account exactly when no
account is available and non-excluded; any returned account is available
and non-excluded; when an available untouched account exists, an untouched
account is returned; when no untouched candidate exists but some available
account has a known next reset, an account with the minimal known next
reset is returned; and when no candidate has a usable reset time the
result is the uniform random choice among the untouched candidates when
any exist, and otherwise among the full available set. -/
theorem pickBestAccount_selection (accounts : List Account)
    (usage : List (String × CodexUsageSnapshot)) (excl : List String)
    (now : Int) (ri : Nat → Nat) (hnow : 0 ≤ now)
    (hri : ∀ n, 0 < n → ri n < n) :
    (pickBestAccount accounts usage excl now ri = none ↔
       ∀ a ∈ accounts, ¬ availableNotExcluded a excl now) ∧
    (∀ a, pickBestAccount accounts usage excl now ri = some a →
       a ∈ accounts ∧ availableNotExcluded a excl now) ∧
    ((∃ a ∈ accounts, availableNotExcluded a excl now ∧
        isUsageUntouched (lookupUsage usage a.email) = true) →
      ∃ a, pickBestAccount accounts usage excl now ri = some a ∧
        isUsageUntouched (lookupUsage usage a.email) = true) ∧
    ((∀ a ∈ accounts, availableNotExcluded a excl now →
        isUsageUntouched (lookupUsage usage a.email) = false) →
     (∃ a ∈ accounts, availableNotExcluded a excl now ∧
        (getNextResetAt (lookupUsage usage a.email)).isSome = true) →
      ∃ a r, pickBestAccount accounts usage excl now ri = some a ∧
        getNextResetAt (lookupUsage usage a.email) = some r ∧
        ∀ b ∈ accounts, availableNotExcluded b excl now →
          ∀ r2, getNextResetAt (lookupUsage usage b.email) = some r2 → r ≤ r2) ∧
    ((∀ a ∈ accounts, availableNotExcluded a excl now →
        getNextResetAt (lookupUsage usage a.email) = none) →
      pickBestAccount accounts usage excl now ri =
        if (untouchedList accounts usage excl now).isEmpty
        then pickRandomAccount (availList accounts excl now) ri
        else pickRandomAccount (untouchedList accounts usage excl now) ri) := by
  have hdef : pickBestAccount accounts usage excl now ri =
      (if (availList accounts excl now).isEmpty then none
       else
         if (((availList accounts excl now).filter (fun a =>
              (lookupUsage usage a.email).isSome)).filter (fun a =>
              isUsageUntouched (lookupUsage usage a.email))).isEmpty then
           match pickEarliestResetAccount ((availList accounts excl now).filter
               (fun a => (lookupUsage usage a.email).isSome)) usage with
           | some a => some a
           | none => pickRandomAccount (availList accounts excl now) ri
         else
           match pickEarliestResetAccount (((availList accounts excl now).filter
               (fun a => (lookupUsage usage a.email).isSome)).filter (fun a =>
               isUsageUntouched (lookupUsage usage a.email))) usage with
           | some a => some a
           | none => pickRandomAccount (((availList accounts excl now).filter
               (fun a => (lookupUsage usage a.email).isSome)).filter (fun a =>
               isUsageUntouched (lookupUsage usage a.email))) ri) := rfl
  set avail := availList accounts excl now with havail
  set withU := avail.filter (fun a => (lookupUsage usage a.email).isSome) with hwithU
  set unt := withU.filter (fun a => isUsageUntouched (lookupUsage usage a.email)) with hunt
  have hmemAvail : ∀ a, a ∈ avail ↔ a ∈ accounts ∧ availableNotExcluded a excl now :=
    fun a => mem_availList_iff accounts excl now hnow a
  have hmemWithU : ∀ a, a ∈ withU ↔ a ∈ avail ∧ (lookupUsage usage a.email).isSome := by
    intro a; simp [hwithU, List.mem_filter]
  have hmemUnt : ∀ a, a ∈ unt ↔ a ∈ withU ∧
      isUsageUntouched (lookupUsage usage a.email) = true := by
    intro a; simp [hunt, List.mem_filter]
  have hsome : avail ≠ [] → ∃ a, pickBestAccount accounts usage excl now ri = some a := by
    intro hne
    rw [hdef, if_neg (by simpa [List.isEmpty_iff] using hne)]
    by_cases hU : unt.isEmpty
    · rw [if_pos hU]
      rcases hE : pickEarliestResetAccount withU usage with _ | a
      · obtain ⟨a, ha, _⟩ := pickRandomAccount_mem avail ri hri hne
        exact ⟨a, ha⟩
      · exact ⟨a, rfl⟩
    · rw [if_neg hU]
      rcases hE : pickEarliestResetAccount unt usage with _ | a
      · have hne2 : unt ≠ [] := by simpa [List.isEmpty_iff] using hU
        obtain ⟨a, ha, _⟩ := pickRandomAccount_mem unt ri hri hne2
        exact ⟨a, ha⟩
      · exact ⟨a, rfl⟩
  have hsound : ∀ a, pickBestAccount accounts usage excl now ri = some a → a ∈ avail := by
    intro a ha
    rw [hdef] at ha
    by_cases hA : avail.isEmpty
    · rw [if_pos hA] at ha; exact absurd ha (by simp)
    · rw [if_neg hA] at ha
      by_cases hU : unt.isEmpty
      · rw [if_pos hU] at ha
        rcases hE : pickEarliestResetAccount withU usage with _ | a2
        · rw [hE] at ha
          have hne : avail ≠ [] := by simpa [List.isEmpty_iff] using hA
          obtain ⟨a3, ha3, hm3⟩ := pickRandomAccount_mem avail ri hri hne
          rw [ha3] at ha
          rw [Option.some_inj.mp ha] at hm3
          exact hm3
        · rw [hE] at ha
          rw [Option.some_inj.mp ha] at hE
          exact ((hmemWithU a).mp (pickEarliestResetAccount_spec _ _ _ hE).1).1
      · rw [if_neg hU] at ha
        rcases hE : pickEarliestResetAccount unt usage with _ | a2
        · rw [hE] at ha
          have hne : unt ≠ [] := by simpa [List.isEmpty_iff] using hU
          obtain ⟨a3, ha3, hm3⟩ := pickRandomAccount_mem unt ri hri hne
          rw [ha3] at ha
          rw [Option.some_inj.mp ha] at hm3
          exact ((hmemWithU a).mp ((hmemUnt a).mp hm3).1).1
        · rw [hE] at ha
          rw [Option.some_inj.mp ha] at hE
          exact ((hmemWithU a).mp ((hmemUnt a).mp
            (pickEarliestResetAccount_spec _ _ _ hE).1).1).1
  refine ⟨?_, ?_, ?_, ?_, ?_⟩
  · -- none iff no available non-excluded account
    constructor
    · intro hnone a ha hpred
      have hne : avail ≠ [] := by
        intro hcon
        have : a ∈ avail := (hmemAvail a).mpr ⟨ha, hpred⟩
        rw [hcon] at this
        simp at this
      obtain ⟨a2, ha2⟩ := hsome hne
      rw [hnone] at ha2
      exact absurd ha2 (by simp)
    · intro hall
      have hA : avail = [] := by
        by_contra hne
        obtain ⟨a, ha⟩ := List.exists_mem_of_ne_nil avail hne
        obtain ⟨hacc, hpred⟩ := (hmemAvail a).mp ha
        exact hall a hacc hpred
      rw [hdef, if_pos (by simp [hA])]
  · -- soundness
    intro a ha
    exact (hmemAvail a).mp (hsound a ha)
  · -- untouched priority
    rintro ⟨a, ha, hpred, huntA⟩
    have hmU : a ∈ unt := (hmemUnt a).mpr
      ⟨(hmemWithU a).mpr ⟨(hmemAvail a).mpr ⟨ha, hpred⟩, by
          cases hl : lookupUsage usage a.email
          · rw [hl] at huntA; exact absurd huntA (by simp [isUsageUntouched])
          · simp [hl]⟩, huntA⟩
    have hUne : unt ≠ [] := fun hcon => by rw [hcon] at hmU; simp at hmU
    have hAne : avail ≠ [] := fun hcon => by
      have := ((hmemUnt a).mp hmU).1
      have := ((hmemWithU a).mp this).1
      rw [hcon] at this; simp at this
    rw [hdef, if_neg (by simpa [List.isEmpty_iff] using hAne),
      if_neg (by simpa [List.isEmpty_iff] using hUne)]
    rcases hE : pickEarliestResetAccount unt usage with _ | a2
    · have hne2 : unt ≠ [] := hUne
      obtain ⟨a3, ha3, hm3⟩ := pickRandomAccount_mem unt ri hri hne2
      rw [ha3]
      exact ⟨a3, rfl, ((hmemUnt a3).mp hm3).2⟩
    · exact ⟨a2, rfl, ((hmemUnt a2).mp (pickEarliestResetAccount_spec _ _ _ hE).1).2⟩
  · -- earliest reset among touched candidates
    intro hnoUnt hexists
    obtain ⟨a, ha, hpred, hreset⟩ := hexists
    have hlookA : (lookupUsage usage a.email).isSome := by
      cases hl : lookupUsage usage a.email
      · rw [hl] at hreset; simp [getNextResetAt] at hreset
      · simp
    have hmW : a ∈ withU := (hmemWithU a).mpr ⟨(hmemAvail a).mpr ⟨ha, hpred⟩, hlookA⟩
    have hAne : avail ≠ [] := fun hcon => by
      have := ((hmemWithU a).mp hmW).1
      rw [hcon] at this; simp at this
    have hUnil : unt = [] := by
      by_contra hne
      obtain ⟨b, hb⟩ := List.exists_mem_of_ne_nil unt hne
      obtain ⟨hbW, hbU⟩ := (hmemUnt b).mp hb
      obtain ⟨hbacc, hbpred⟩ := (hmemAvail b).mp ((hmemWithU b).mp hbW).1
      rw [hnoUnt b hbacc hbpred] at hbU
      exact absurd hbU (by simp)
    have hEne : pickEarliestResetAccount withU usage ≠ none := by
      intro hcon
      have := (pickEarliestResetAccount_eq_none_iff withU usage).mp hcon a hmW
      rw [this] at hreset
      exact absurd hreset (by simp)
    rcases hE : pickEarliestResetAccount withU usage with _ | a2
    · exact absurd hE hEne
    obtain ⟨hm2, r, hr, hmin⟩ := pickEarliestResetAccount_spec _ _ _ hE
    refine ⟨a2, r, ?_, hr, ?_⟩
    · rw [hdef, if_neg (by simpa [List.isEmpty_iff] using hAne),
        if_pos (by simp [hUnil]), hE]
    · intro b hb hbpred r2 hr2
      have hblook : (lookupUsage usage b.email).isSome := by
        cases hl : lookupUsage usage b.email
        · rw [hl] at hr2; simp [getNextResetAt] at hr2
        · simp
      have hbW : b ∈ withU := (hmemWithU b).mpr ⟨(hmemAvail b).mpr ⟨hb, hbpred⟩, hblook⟩
      exact hmin b hbW r2 hr2
  · -- random fallback (amended): untouched subset first, else full available set
    intro hnone
    have hEwithU : pickEarliestResetAccount withU usage = none := by
      rw [pickEarliestResetAccount_eq_none_iff]
      intro b hb
      obtain ⟨hbacc, hbpred⟩ := (hmemAvail b).mp ((hmemWithU b).mp hb).1
      exact hnone b hbacc hbpred
    have hEunt : pickEarliestResetAccount unt usage = none := by
      rw [pickEarliestResetAccount_eq_none_iff]
      intro b hb
      obtain ⟨hbacc, hbpred⟩ := (hmemAvail b).mp
        ((hmemWithU b).mp ((hmemUnt b).mp hb).1).1
      exact hnone b hbacc hbpred
    have huntEq : unt = untouchedList accounts usage excl now :=
      untouchedList_eq_inner accounts usage excl now
    by_cases hA : avail.isEmpty
    · have hAnil : avail = [] := by simpa [List.isEmpty_iff] using hA
      have hUnil : unt = [] := by
        rw [hunt, hwithU, hAnil]; rfl
      rw [hdef, if_pos hA, ← huntEq, hUnil]
      simp [pickRandomAccount, hAnil]
    · rw [hdef, if_neg hA, ← huntEq]
      by_cases hU : unt.isEmpty
      · rw [if_pos hU, if_pos hU, hEwithU]
      · rw [if_neg hU, if_neg hU, hEunt]


/-- C3 counterexample: with an untouched account `a` (no reset time) and an
account `b` without usage data, no candidate has a usable reset time, yet
for the draw picking the last element the selection returns `a` while the
uniform choice among the full available set would be `b`: the random
fallback draws from the untouched subset, not the full available set. -/
theorem pickBestAccount_uniform_counterexample :
    getNextResetAt (lookupUsage cexUsage "a") = none ∧
    getNextResetAt (lookupUsage cexUsage "b") = none ∧
    pickBestAccount [cexAcctA, cexAcctB] cexUsage [] 0 (fun n => n - 1) =
      some cexAcctA ∧
    pickRandomAccount (availList [cexAcctA, cexAcctB] [] 0) (fun n => n - 1) =
      some cexAcctB ∧
    cexAcctA ≠ cexAcctB :=
  ⟨by decide, by decide, by decide, by decide, by decide⟩

/-- Witness for C3: the amended selection theorem applied at a concrete
pool in which `b` is untouched. -/
theorem pickBestAccount_selection_witness :
    ∃ a, pickBestAccount [cexAcctA, cexAcctB] cexUsage [] 0 (fun n => n - 1) =
        some a ∧ isUsageUntouched (lookupUsage cexUsage a.email) = true :=
  (pickBestAccount_selection [cexAcctA, cexAcctB] cexUsage [] 0
      (fun n => n - 1) (by decide) (fun n hn => by simpa using Nat.sub_lt hn Nat.one_pos)).2.2.1
    ⟨cexAcctA, by decide, ⟨Or.inl rfl, by simp⟩, by decide⟩

-- ============================================================
-- Lemmas about the credential store operations
-- ============================================================

theorem find_updateFirst_self (l : List Account) (email : String)
    (f : Account → Account) (hf : ∀ x, (f x).email = x.email) (a : Account)
    (h : l.find? (fun x => x.email == email) = some a) :
    (updateFirstAccount l email f).find? (fun x => x.email == email) = some (f a) := by
  induction l with
  | nil => simp at h
  | cons b t ih =>
    by_cases hb : b.email = email
    · rw [List.find?_cons_of_pos _ (by simp [hb])] at h
      cases Option.some_inj.mp h
      rw [updateFirstAccount, if_pos hb]
      exact List.find?_cons_of_pos _ (by simp [hf, hb])
    · rw [List.find?_cons_of_neg _ (by simp [hb])] at h
      rw [updateFirstAccount, if_neg hb]
      rw [List.find?_cons_of_neg _ (by simp [hb])]
      exact ih h

theorem find_updateFirst_other (l : List Account) (email e2 : String)
    (f : Account → Account) (hf : ∀ x, (f x).email = x.email) (hne : e2 ≠ email) :
    (updateFirstAccount l email f).find? (fun x => x.email == e2) =
      l.find? (fun x => x.email == e2) := by
  induction l with
  | nil => rfl
  | cons b t ih =>
    by_cases hb : b.email = email
    · rw [updateFirstAccount, if_pos hb]
      rw [List.find?_cons_of_neg _ (by simp [hf, hb]; exact fun hcon => hne hcon.symm),
        List.find?_cons_of_neg _ (by simp [hb]; exact fun hcon => hne hcon.symm)]
    · rw [updateFirstAccount, if_neg hb]
      by_cases hbe : b.email = e2
      · rw [List.find?_cons_of_pos _ (by simp [hbe]),
          List.find?_cons_of_pos _ (by simp [hbe])]
      · rw [List.find?_cons_of_neg _ (by simp [hbe]),
          List.find?_cons_of_neg _ (by simp [hbe])]
        exact ih

theorem map_email_updateFirst (l : List Account) (email : String)
    (f : Account → Account) (hf : ∀ x, (f x).email = x.email) :
    (updateFirstAccount l email f).map Account.email = l.map Account.email := by
  induction l with
  | nil => rfl
  | cons b t ih =>
    by_cases hb : b.email = email
    · rw [updateFirstAccount, if_pos hb]
      simp [hf]
    · rw [updateFirstAccount, if_neg hb]
      simp [ih]

theorem getAccount_isSome_of_map_email (d1 d2 : StorageData) (email : String)
    (h : d1.accounts.map Account.email = d2.accounts.map Account.email) :
    (getAccount d1 email).isSome = (getAccount d2 email).isSome := by
  unfold getAccount
  have h1 : ∀ (l1 l2 : List Account),
      l1.map Account.email = l2.map Account.email →
      (l1.find? (fun a => a.email == email)).isSome =
        (l2.find? (fun a => a.email == email)).isSome := by
    intro l1
    induction l1 with
    | nil =>
      intro l2 h2
      cases l2 with
      | nil => rfl
      | cons c u => simp at h2
    | cons b t ih =>
      intro l2 h2
      cases l2 with
      | nil => simp at h2
      | cons c u =>
        simp only [List.map_cons, List.cons.injEq] at h2
        by_cases hb : b.email = email
        · rw [List.find?_cons_of_pos _ (by simp [hb]),
            List.find?_cons_of_pos _ (by simp [← h2.1, hb])]
          rfl
        · rw [List.find?_cons_of_neg _ (by simp [hb]),
            List.find?_cons_of_neg _ (by simp [← h2.1, hb])]
          exact ih u h2.2
  exact h1 d1.accounts d2.accounts h

/-- C9: within the 5-minute-before-expiry margin `ensureValidToken` returns
the stored access token, refreshes nothing, and mutates nothing; hence an
immediately repeated call behaves identically. -/
theorem ensureValidToken_fresh (env : RequestEnv) (st : ManagerState)
    (account : Account)
    (hst : getAccount st.data account.email = some account)
    (hfresh : env.now < account.expiresAt - 5 * 60 * 1000) :
    ensureValidToken env st account = (st, .ok account.accessToken, false) ∧
    ensureValidToken env (ensureValidToken env st account).1 account =
      ensureValidToken env st account := by
  have h1 : ensureValidToken env st account = (st, .ok account.accessToken, false) := by
    unfold ensureValidToken
    rw [hst]
    simp only [Option.getD_some]
    rw [if_pos hfresh]
  refine ⟨h1, ?_⟩
  rw [h1]
  exact h1

/-- Witness for C9 at a concrete account 10 minutes before expiry. -/
theorem ensureValidToken_fresh_witness :
    ensureValidToken
        ⟨0, fun _ => 0, "multicodex", fun _ => .error "down", fun _ => .error "down",
          fun _ => []⟩
        ⟨⟨[⟨"a", "tok", "ref", 600000, none, none, none⟩], none⟩, [], [], none⟩
        ⟨"a", "tok", "ref", 600000, none, none, none⟩ =
      (⟨⟨[⟨"a", "tok", "ref", 600000, none, none, none⟩], none⟩, [], [], none⟩,
        .ok "tok", false) :=
  (ensureValidToken_fresh _ _ _ (by decide) (by decide)).1

/-- C10: updating an existing account overwrites only its token fields
(and, when the credentials carry a non-empty one, `accountId`), stamps
`lastUsed` and sets the account active; its cooldown, every other account,
and the volatile manager state are untouched. -/
theorem addOrUpdateAccount_frame (st : ManagerState) (email : String)
    (creds : OAuthCredentials) (now : Int) (a : Account)
    (h : getAccount st.data email = some a) :
    getAccount (addOrUpdateAccount st email creds now).data email =
      some { a with
        accessToken := creds.access,
        refreshToken := creds.refresh,
        expiresAt := creds.expires,
        accountId := (match creds.accountId with
          | some id => if id = "" then a.accountId else some id
          | none => a.accountId),
        lastUsed := some now } ∧
    (addOrUpdateAccount st email creds now).data.activeEmail = some email ∧
    (∀ e2, e2 ≠ email →
      getAccount (addOrUpdateAccount st email creds now).data e2 =
        getAccount st.data e2) ∧
    (addOrUpdateAccount st email creds now).data.accounts.map Account.email =
      st.data.accounts.map Account.email ∧
    (addOrUpdateAccount st email creds now).usageCache = st.usageCache ∧
    (addOrUpdateAccount st email creds now).warnings = st.warnings ∧
    (addOrUpdateAccount st email creds now).manualEmail = st.manualEmail ∧
    (getAccount (addOrUpdateAccount st email creds now).data email).map
        Account.quotaExhaustedUntil = some a.quotaExhaustedUntil := by
  have hemail : a.email = email := by
    have := List.find?_some h
    simpa using this
  set f1 : Account → Account := fun a0 =>
    { a0 with
      accessToken := creds.access,
      refreshToken := creds.refresh,
      expiresAt := creds.expires,
      accountId := (match creds.accountId with
        | some id => if id = "" then a0.accountId else some id
        | none => a0.accountId) } with hf1
  set f2 : Account → Account := fun a0 => { a0 with lastUsed := some now } with hf2
  have hf1e : ∀ x, (f1 x).email = x.email := fun x => rfl
  have hf2e : ∀ x, (f2 x).email = x.email := fun x => rfl
  have hstep1 : (updateFirstAccount st.data.accounts email f1).find?
      (fun x => x.email == email) = some (f1 a) :=
    find_updateFirst_self st.data.accounts email f1 hf1e a h
  have hstep2 : (updateFirstAccount (updateFirstAccount st.data.accounts email f1)
      email f2).find? (fun x => x.email == email) = some (f2 (f1 a)) :=
    find_updateFirst_self _ email f2 hf2e (f1 a) hstep1
  have hstep0 : addOrUpdateAccount st email creds now =
      setActiveAccount
        { st with data := { st.data with
            accounts := updateFirstAccount st.data.accounts email f1 } } email now := by
    unfold addOrUpdateAccount
    rw [h]
  have hunfold : addOrUpdateAccount st email creds now =
      { st with data :=
          { accounts := updateFirstAccount (updateFirstAccount st.data.accounts email f1)
              email f2,
            activeEmail := some email } } := by
    rw [hstep0]
    unfold setActiveAccount
    have hga : getAccount
        { st with data := { st.data with
            accounts := updateFirstAccount st.data.accounts email f1 } }.data email =
        some (f1 a) := by
      show (updateFirstAccount st.data.accounts email f1).find?
        (fun x => x.email == email) = some (f1 a)
      exact hstep1
    rw [hga]
  rw [hunfold]
  refine ⟨hstep2, rfl, ?_, ?_, rfl, rfl, rfl, ?_⟩
  · intro e2 hne
    show (updateFirstAccount (updateFirstAccount st.data.accounts email f1)
        email f2).find? (fun x => x.email == e2) = getAccount st.data e2
    rw [find_updateFirst_other _ email e2 f2 hf2e hne,
      find_updateFirst_other _ email e2 f1 hf1e hne]
    rfl
  · show (updateFirstAccount (updateFirstAccount st.data.accounts email f1)
        email f2).map Account.email = st.data.accounts.map Account.email
    rw [map_email_updateFirst _ email f2 hf2e, map_email_updateFirst _ email f1 hf1e]
  · show ((updateFirstAccount (updateFirstAccount st.data.accounts email f1)
        email f2).find? (fun x => x.email == email)).map Account.quotaExhaustedUntil =
      some a.quotaExhaustedUntil
    rw [hstep2]
    rfl

/-- Witness for C10: re-logging-in an exhausted account keeps its cooldown. -/
theorem addOrUpdateAccount_frame_witness :
    getAccount (addOrUpdateAccount
        ⟨⟨[⟨"a", "old", "oldr", 5, none, none, some 777⟩,
           ⟨"b", "bt", "br", 6, none, none, none⟩], none⟩, [], [], none⟩
        "a" ⟨"new", "newr", 9, some "acct-1"⟩ 42).data "a" =
      some ⟨"a", "new", "newr", 9, some "acct-1", some 42, some 777⟩ ∧
    getAccount (addOrUpdateAccount
        ⟨⟨[⟨"a", "old", "oldr", 5, none, none, some 777⟩,
           ⟨"b", "bt", "br", 6, none, none, none⟩], none⟩, [], [], none⟩
        "a" ⟨"new", "newr", 9, some "acct-1"⟩ 42).data "b" =
      some ⟨"b", "bt", "br", 6, none, none, none⟩ := by
  have h := addOrUpdateAccount_frame
    ⟨⟨[⟨"a", "old", "oldr", 5, none, none, some 777⟩,
       ⟨"b", "bt", "br", 6, none, none, none⟩], none⟩, [], [], none⟩
    "a" ⟨"new", "newr", 9, some "acct-1"⟩ 42
    ⟨"a", "old", "oldr", 5, none, none, some 777⟩ (by decide)
  refine ⟨?_, ?_⟩
  · rw [h.1]; decide
  · rw [h.2.2.1 "b" (by decide)]; decide

-- ============================================================
-- Lemmas about the usage-refresh and quota operations
-- ============================================================

theorem ensureValidToken_frame (env : RequestEnv) (st : ManagerState) (a : Account) :
    (ensureValidToken env st a).1.data.accounts.map Account.email =
      st.data.accounts.map Account.email ∧
    (ensureValidToken env st a).1.usageCache = st.usageCache ∧
    (ensureValidToken env st a).1.warnings = st.warnings ∧
    (ensureValidToken env st a).1.manualEmail = st.manualEmail := by
  simp only [ensureValidToken]
  split_ifs with hc
  · exact ⟨rfl, rfl, rfl, rfl⟩
  · rcases hr : env.refreshTok ((getAccount st.data a.email).getD a).refreshToken
        with m | res
    · exact ⟨rfl, rfl, rfl, rfl⟩
    · refine ⟨?_, rfl, rfl, rfl⟩
      exact map_email_updateFirst _ _ _ (fun x => rfl)

theorem refreshFetch_frame (env : RequestEnv) (st : ManagerState) (a : Account) :
    (refreshFetch env st a).1.data.accounts.map Account.email =
      st.data.accounts.map Account.email := by
  unfold refreshFetch
  rcases h : ensureValidToken env st a with ⟨st1, m | t, b⟩
  · have hmap := (ensureValidToken_frame env st a).1
    rw [h] at hmap
    simpa using hmap
  · have hmap := (ensureValidToken_frame env st a).1
    rw [h] at hmap
    rcases henv : env.usageFetch a.email with m | pr
    · simpa using hmap
    · obtain ⟨p, s⟩ := pr
      simpa using hmap

theorem refreshUsageForAccount_frame (env : RequestEnv) (st : ManagerState)
    (account : Account) (force : Bool) :
    (refreshUsageForAccount env st account force).1.data.accounts.map Account.email =
      st.data.accounts.map Account.email := by
  simp only [refreshUsageForAccount]
  rcases hl : lookupUsage st.usageCache
      ((getAccount st.data account.email).getD account).email with _ | c
  · simp only [hl]
    exact refreshFetch_frame env st _
  · simp only [hl]
    split_ifs with hc
    · rfl
    · exact refreshFetch_frame env st _

theorem markExhausted_marks (st : ManagerState) (email : String) (u : Int)
    (a1 : Account) (h : getAccount st.data email = some a1) :
    getAccount (markExhausted st email u).data email =
      some { a1 with quotaExhaustedUntil := some u } := by
  simp only [markExhausted, h]
  show (updateFirstAccount st.data.accounts email
      (fun a => { a with quotaExhaustedUntil := some u })).find?
      (fun x => x.email == email) =
    some { a1 with quotaExhaustedUntil := some u }
  exact find_updateFirst_self st.data.accounts email
    (fun a => { a with quotaExhaustedUntil := some u }) (fun x => rfl) a1 h

/-- C5: `handleQuotaExceeded` force-refreshes the account's usage and marks
the account exhausted until the refreshed next reset time when that time is
strictly in the future, else until `now + 1 hour` (in particular whenever
the forced fetch fails and no reset time is known). -/
theorem handleQuotaExceeded_cooldown (env : RequestEnv) (st : ManagerState)
    (account : Account) (hnow : 0 ≤ env.now)
    (hmem : (getAccount st.data account.email).isSome = true) :
    handleQuotaExceeded env st account =
      markExhausted (refreshUsageForAccount env st account true).1 account.email
        (match getNextResetAt (refreshUsageForAccount env st account true).2 with
         | some r => if env.now < r then r else env.now + QUOTA_COOLDOWN_MS
         | none => env.now + QUOTA_COOLDOWN_MS) ∧
    ∃ a2, getAccount (handleQuotaExceeded env st account).data account.email =
        some a2 ∧
      a2.quotaExhaustedUntil =
        some (match getNextResetAt (refreshUsageForAccount env st account true).2 with
         | some r => if env.now < r then r else env.now + QUOTA_COOLDOWN_MS
         | none => env.now + QUOTA_COOLDOWN_MS) := by
  set uVal : Int := (match getNextResetAt (refreshUsageForAccount env st account true).2 with
    | some r => if env.now < r then r else env.now + QUOTA_COOLDOWN_MS
    | none => env.now + QUOTA_COOLDOWN_MS) with huVal
  have heq : handleQuotaExceeded env st account =
      markExhausted (refreshUsageForAccount env st account true).1 account.email uVal := by
    simp only [handleQuotaExceeded]
    rcases hr : getNextResetAt (refreshUsageForAccount env st account true).2
        with _ | r
    · simp only [huVal, hr]
    · simp only [huVal, hr]
      by_cases hlt : env.now < r
      · have hr0 : r ≠ 0 := by intro hcon; rw [hcon] at hlt; omega
        rw [if_pos (And.intro hr0 hlt), if_pos hlt]
      · rw [if_neg (fun hcon => hlt hcon.2), if_neg hlt]
  refine ⟨heq, ?_⟩
  have hmem2 : (getAccount (refreshUsageForAccount env st account true).1.data
      account.email).isSome = true := by
    rw [getAccount_isSome_of_map_email _ st.data account.email
      (refreshUsageForAccount_frame env st account true)]
    exact hmem
  rcases hga : getAccount (refreshUsageForAccount env st account true).1.data
      account.email with _ | a1
  · rw [hga] at hmem2; simp at hmem2
  · refine ⟨{ a1 with quotaExhaustedUntil := some uVal }, ?_, rfl⟩
    rw [heq]
    exact markExhausted_marks _ account.email _ a1 hga

/-- Witness for C5: with a usage endpoint reporting reset time 5 s
(5000 ms after parsing), the account is marked exhausted until then. -/
theorem handleQuotaExceeded_cooldown_witness :
    ∃ a2, getAccount (handleQuotaExceeded w5Env w5State w5Acct).data w5Acct.email =
        some a2 ∧
      a2.quotaExhaustedUntil =
        some (match getNextResetAt (refreshUsageForAccount w5Env w5State w5Acct true).2 with
         | some r => if w5Env.now < r then r else w5Env.now + QUOTA_COOLDOWN_MS
         | none => w5Env.now + QUOTA_COOLDOWN_MS) :=
  (handleQuotaExceeded_cooldown w5Env w5State w5Acct (by decide) (by decide)).2

theorem refreshFetch_failure (env : RequestEnv) (st : ManagerState) (a : Account)
    (hfail : (∃ st1 m b, ensureValidToken env st a = (st1, .error m, b)) ∨
      (∃ st1 t b m, ensureValidToken env st a = (st1, .ok t, b) ∧
        env.usageFetch a.email = .error m)) :
    (refreshFetch env st a).2 = none ∧
    (refreshFetch env st a).1.usageCache = st.usageCache ∧
    ∃ m, (refreshFetch env st a).1.warnings =
      st.warnings ++ [usageWarning a.email m] := by
  rcases hfail with ⟨st1, m, b, h⟩ | ⟨st1, t, b, m, h, hu⟩
  · have hframe := ensureValidToken_frame env st a
    rw [h] at hframe
    have hcache : st1.usageCache = st.usageCache := hframe.2.1
    have hwarn : st1.warnings = st.warnings := hframe.2.2.1
    have hbranch : refreshFetch env st a =
        ({ st1 with warnings := st1.warnings ++ [usageWarning a.email m] }, none) := by
      unfold refreshFetch
      rw [h]
    rw [hbranch]
    refine ⟨rfl, hcache, m, ?_⟩
    show st1.warnings ++ [usageWarning a.email m] =
      st.warnings ++ [usageWarning a.email m]
    rw [hwarn]
  · have hframe := ensureValidToken_frame env st a
    rw [h] at hframe
    have hcache : st1.usageCache = st.usageCache := hframe.2.1
    have hwarn : st1.warnings = st.warnings := hframe.2.2.1
    have hbranch : refreshFetch env st a =
        ({ st1 with warnings := st1.warnings ++ [usageWarning a.email m] }, none) := by
      unfold refreshFetch
      rw [h, hu]
    rw [hbranch]
    refine ⟨rfl, hcache, m, ?_⟩
    show st1.warnings ++ [usageWarning a.email m] =
      st.warnings ++ [usageWarning a.email m]
    rw [hwarn]

/-- C6 (amended): when the usage fetch (or the token refresh it requires)
fails past the cache-freshness gate, `refreshUsageForAccount` reports the
failure on the warning channel and returns absent — not the previous
cached snapshot — while leaving the cache entry unchanged; no exception
reaches the caller (the operation is total). -/
theorem refreshUsageForAccount_failure (env : RequestEnv) (st : ManagerState)
    (account : Account) (force : Bool)
    (hgate : ∀ c, lookupUsage st.usageCache
        ((getAccount st.data account.email).getD account).email = some c →
      force = true ∨ USAGE_CACHE_TTL_MS ≤ env.now - c.fetchedAt)
    (hfail : (∃ st1 m b, ensureValidToken env st
        ((getAccount st.data account.email).getD account) = (st1, .error m, b)) ∨
      (∃ st1 t b m, ensureValidToken env st
          ((getAccount st.data account.email).getD account) = (st1, .ok t, b) ∧
        env.usageFetch ((getAccount st.data account.email).getD account).email =
          .error m)) :
    (refreshUsageForAccount env st account force).2 = none ∧
    (refreshUsageForAccount env st account force).1.usageCache = st.usageCache ∧
    ∃ m, (refreshUsageForAccount env st account force).1.warnings =
      st.warnings ++ [usageWarning
        ((getAccount st.data account.email).getD account).email m] := by
  simp only [refreshUsageForAccount]
  rcases hl : lookupUsage st.usageCache
      ((getAccount st.data account.email).getD account).email with _ | c
  · simp only [hl]
    exact refreshFetch_failure env st _ hfail
  · simp only [hl]
    rcases hgate c hl with hforce | httl
    · subst hforce
      have hcond : (!true && decide (env.now - c.fetchedAt < USAGE_CACHE_TTL_MS)) =
          false := by simp
      rw [hcond, if_neg (by simp)]
      exact refreshFetch_failure env st _ hfail
    · have hnl : ¬(env.now - c.fetchedAt < USAGE_CACHE_TTL_MS) := not_lt.mpr httl
      have hcond : (!force && decide (env.now - c.fetchedAt < USAGE_CACHE_TTL_MS)) =
          false := by simp [hnl]
      rw [hcond, if_neg (by simp)]
      exact refreshFetch_failure env st _ hfail

/-- C6 counterexample: a cached snapshot exists for the account, the forced
refresh fails, and the call returns absent rather than the cached snapshot,
refuting the claim that the previous cached value is returned. -/
theorem refreshUsage_failure_cached_counterexample :
    lookupUsage c6State.usageCache "a" = some c6Snap ∧
    (refreshUsageForAccount c6Env c6State c6Acct true).2 = none ∧
    ¬ (refreshUsageForAccount c6Env c6State c6Acct true).2 = some c6Snap :=
  ⟨by decide, by decide, by decide⟩

/-- Witness for C6: the amended theorem at the concrete failing fixture. -/
theorem refreshUsageForAccount_failure_witness :
    (refreshUsageForAccount c6Env c6State c6Acct true).2 = none ∧
    (refreshUsageForAccount c6Env c6State c6Acct true).1.usageCache =
      c6State.usageCache ∧
    ∃ m, (refreshUsageForAccount c6Env c6State c6Acct true).1.warnings =
      c6State.warnings ++ [usageWarning
        ((getAccount c6State.data c6Acct.email).getD c6Acct).email m] :=
  refreshUsageForAccount_failure c6Env c6State c6Acct true
    (fun _c _hc => Or.inl rfl)
    (Or.inr ⟨c6State, "t", false, "usage-down", rfl, rfl⟩)

-- ============================================================
-- Lemmas about the streaming retry wrapper
-- ============================================================

theorem consumeInner_no_retry_of_budget_exhausted (p : String) :
    ∀ (l : List Ev) (fwd : Bool) (pushed : List Ev),
      consumeInner p false l fwd ≠ .retryOut pushed := by
  intro l
  induction l with
  | nil => intro fwd pushed; simp [consumeInner]
  | cons e rest ih =>
    intro fwd pushed
    rcases e with ⟨kind, prov⟩
    cases kind with
    | errorEv msg => simp [consumeInner]
    | doneEv => simp [consumeInner]
    | pieceEv tag =>
      simp only [consumeInner]
      rcases hres : consumeInner p false rest true with pushed2 | pushed2
      · exact absurd hres (ih true pushed2)
      · simp
    | unknownEv tag =>
      simp only [consumeInner]
      rcases hres : consumeInner p false rest true with pushed2 | pushed2
      · exact absurd hres (ih true pushed2)
      · simp

theorem consumeInner_after_output (p : String) (canRetry : Bool)
    (msg prov : String) (rest : List Ev) :
    ∀ (pre : List Ev),
      (∀ e ∈ pre, (∀ m2, e.kind ≠ EvKind.errorEv m2) ∧ e.kind ≠ EvKind.doneEv) →
      consumeInner p canRetry (pre ++ ⟨EvKind.errorEv msg, prov⟩ :: rest) true =
        .endOut (pre.map (fun e => withProvider e p) ++
          [withProvider ⟨EvKind.errorEv msg, prov⟩ p]) := by
  intro pre
  induction pre with
  | nil => intro _; simp [consumeInner]
  | cons e pre ih =>
    intro hpre
    obtain ⟨hne, hnd⟩ := hpre e (List.mem_cons_self _ _)
    have hrest := ih (fun e2 he2 => hpre e2 (List.mem_cons_of_mem _ he2))
    have hrest2 : consumeInner p canRetry
        (pre.append (⟨EvKind.errorEv msg, prov⟩ :: rest)) true =
      ConsumeOut.endOut (pre.map (fun e => withProvider e p) ++
        [withProvider ⟨EvKind.errorEv msg, prov⟩ p]) := hrest
    rcases e with ⟨kind, prov2⟩
    cases kind with
    | errorEv m2 => exact absurd rfl (hne m2)
    | doneEv => exact absurd rfl hnd
    | pieceEv tag =>
      simp only [List.cons_append, consumeInner, hrest2, List.map_cons]
    | unknownEv tag =>
      simp only [List.cons_append, consumeInner, hrest2, List.map_cons]

theorem consumeInner_first_error (p : String) (canRetry : Bool)
    (pre : List Ev) (msg prov : String) (rest : List Ev)
    (hpre : ∀ e ∈ pre, (∀ m2, e.kind ≠ EvKind.errorEv m2) ∧ e.kind ≠ EvKind.doneEv) :
    consumeInner p canRetry (pre ++ ⟨EvKind.errorEv msg, prov⟩ :: rest) false =
      if isQuotaErrorMessage msg = true ∧ pre = [] ∧ canRetry = true
      then .retryOut []
      else .endOut (pre.map (fun e => withProvider e p) ++
        [withProvider ⟨EvKind.errorEv msg, prov⟩ p]) := by
  cases pre with
  | nil =>
    cases canRetry <;> rcases hq : isQuotaErrorMessage msg <;>
      simp [consumeInner, hq]
  | cons e pre2 =>
    have hne : ¬(e :: pre2 = ([] : List Ev)) := by simp
    rw [if_neg (fun hcon => hne hcon.2.1)]
    obtain ⟨hnerr, hnd⟩ := hpre e (List.mem_cons_self _ _)
    have hrest := consumeInner_after_output p canRetry msg prov rest pre2
      (fun e2 he2 => hpre e2 (List.mem_cons_of_mem _ he2))
    have hrest2 : consumeInner p canRetry
        (pre2.append (⟨EvKind.errorEv msg, prov⟩ :: rest)) true =
      ConsumeOut.endOut (pre2.map (fun e => withProvider e p) ++
        [withProvider ⟨EvKind.errorEv msg, prov⟩ p]) := hrest
    rcases e with ⟨kind, prov2⟩
    cases kind with
    | errorEv m2 => exact absurd rfl (hnerr m2)
    | doneEv => exact absurd rfl hnd
    | pieceEv tag =>
      simp only [List.cons_append, consumeInner, hrest2, List.map_cons]
    | unknownEv tag =>
      simp only [List.cons_append, consumeInner, hrest2, List.map_cons]

theorem runFrom_attempts_bound (env : RequestEnv) :
    ∀ (r : Nat) (st : ManagerState) (excl : List String),
      (runFrom env r st excl).attemptsUsed ≤ r ∧
      (0 < r → (runFrom env r st excl).fellThrough = false) := by
  intro r
  induction r with
  | zero =>
    intro st excl
    exact ⟨Nat.le_refl 0, fun h => absurd h (by simp)⟩
  | succ r ih =>
    intro st excl
    rcases hact : activateBestAccount env st excl with ⟨_ | acct, st1⟩
    · constructor
      · simp [runFrom, hact]
      · intro _; simp [runFrom, hact]
    · rcases htok : ensureValidToken env st1 acct with ⟨st2, m | tok, b⟩
      · constructor
        · simp [runFrom, hact, htok]
        · intro _; simp [runFrom, hact, htok]
      · rcases hc : consumeInner env.modelProvider (decide (0 < r))
            (env.streams (MAX_ROTATION_RETRIES - r)) false with pushed | pushed
        · have hr : 0 < r := by
            by_contra hr0
            have hz : r = 0 := Nat.eq_zero_of_not_pos hr0
            subst hz
            exact consumeInner_no_retry_of_budget_exhausted env.modelProvider
              (env.streams (MAX_ROTATION_RETRIES - 0)) false pushed
              (by simpa using hc)
          obtain ⟨ihA, ihF⟩ := ih
            (handleQuotaExceeded env st2 ((getAccount st2.data acct.email).getD acct))
            (acct.email :: excl)
          constructor
          · simp only [runFrom, hact, htok, hc]
            omega
          · intro _
            simp only [runFrom, hact, htok, hc]
            exact ihF hr
        · constructor
          · simp [runFrom, hact, htok, hc]
          · intro _; simp [runFrom, hact, htok, hc]

/-- C2: per logical request the wrapper performs at most
`MAX_ROTATION_RETRIES + 1 = 6` loop iterations, the attempt loop never
falls through without ending the caller stream (no hang, no unbounded
retry — the model is a total function), and when no account is obtainable
or the token refresh throws, the caller receives exactly one synthetic
terminal error event carrying the underlying message and the request
ends in that single iteration. -/
theorem streamWrapper_bounded_termination :
    (∀ env st, (runRequest env st).attemptsUsed ≤ MAX_ROTATION_RETRIES + 1) ∧
    (∀ env st, (runRequest env st).fellThrough = false) ∧
    (∀ env (st : ManagerState) excl (r : Nat) st1, 0 < r →
      activateBestAccount env st excl = (none, st1) →
      runFrom env r st excl =
        ⟨[mkCatchErrorEvent env.modelProvider noAccountsMessage], st1, 1, [], false⟩) ∧
    (∀ env (st : ManagerState) excl (r : Nat) acct st1 st2 m b, 0 < r →
      activateBestAccount env st excl = (some acct, st1) →
      ensureValidToken env st1 acct = (st2, .error m, b) →
      runFrom env r st excl =
        ⟨[mkCatchErrorEvent env.modelProvider m], st2, 1, [], false⟩) := by
  refine ⟨?_, ?_, ?_, ?_⟩
  · intro env st
    exact (runFrom_attempts_bound env (MAX_ROTATION_RETRIES + 1) st []).1
  · intro env st
    exact (runFrom_attempts_bound env (MAX_ROTATION_RETRIES + 1) st []).2
      (by simp [MAX_ROTATION_RETRIES])
  · intro env st excl r st1 hr hact
    cases r with
    | zero => omega
    | succ r => simp [runFrom, hact]
  · intro env st excl r acct st1 st2 m b hr hact htok
    cases r with
    | zero => omega
    | succ r => simp [runFrom, hact, htok]

/-- Witness for C2 at concrete pools: the two-account quota-then-done
scenario, the empty pool, and the expired-token pool. -/
theorem streamWrapper_bounded_termination_witness :
    (runRequest wrapEnv wrapState).attemptsUsed ≤ MAX_ROTATION_RETRIES + 1 ∧
    (runRequest wrapEnv wrapState).fellThrough = false ∧
    runFrom wrapEnv 6 emptyState [] =
      ⟨[mkCatchErrorEvent wrapEnv.modelProvider noAccountsMessage],
        emptyState, 1, [], false⟩ ∧
    runFrom wrapEnv 6 tokFailState [] =
      ⟨[mkCatchErrorEvent wrapEnv.modelProvider "no refresh"],
        tokFailAfter, 1, [], false⟩ :=
  ⟨streamWrapper_bounded_termination.1 wrapEnv wrapState,
   streamWrapper_bounded_termination.2.1 wrapEnv wrapState,
   streamWrapper_bounded_termination.2.2.1 wrapEnv emptyState [] 6 emptyState
     (by decide) (by decide),
   streamWrapper_bounded_termination.2.2.2 wrapEnv tokFailState [] 6
     ⟨"a", "t", "r", 0, none, none, none⟩ tokFailAfter tokFailAfter
     "no refresh" true (by decide) (by decide) rfl⟩

theorem getAccount_email (d : StorageData) (e : String) (x : Account)
    (h : getAccount d e = some x) : x.email = e := by
  have := List.find?_some h
  simpa using this

theorem pickRandomAccount_mem_of_some (l : List Account) (ri : Nat → Nat)
    (a : Account) (h : pickRandomAccount l ri = some a) : a ∈ l := by
  unfold pickRandomAccount at h
  split_ifs at h
  exact List.get?_mem h

theorem pickBestAccount_mem (accounts : List Account)
    (usage : List (String × CodexUsageSnapshot)) (excl : List String)
    (now : Int) (ri : Nat → Nat) (a : Account)
    (h : pickBestAccount accounts usage excl now ri = some a) : a ∈ accounts := by
  simp only [pickBestAccount] at h
  split_ifs at h with hA hU
  · rcases hE : pickEarliestResetAccount
        ((accounts.filter (fun a => isAccountAvailable a now &&
          !excl.contains a.email)).filter
          (fun a => (lookupUsage usage a.email).isSome)) usage with _ | a2
    · rw [hE] at h
      have hmem := pickRandomAccount_mem_of_some _ _ _ h
      exact (List.mem_filter.mp hmem).1
    · rw [hE] at h
      rw [Option.some_inj.mp h] at hE
      have hmem := (pickEarliestResetAccount_spec _ _ _ hE).1
      exact (List.mem_filter.mp (List.mem_filter.mp hmem).1).1
  · rcases hE : pickEarliestResetAccount
        (((accounts.filter (fun a => isAccountAvailable a now &&
          !excl.contains a.email)).filter
          (fun a => (lookupUsage usage a.email).isSome)).filter
          (fun a => isUsageUntouched (lookupUsage usage a.email))) usage with _ | a2
    · rw [hE] at h
      have hmem := pickRandomAccount_mem_of_some _ _ _ h
      exact (List.mem_filter.mp (List.mem_filter.mp
        (List.mem_filter.mp hmem).1).1).1
    · rw [hE] at h
      rw [Option.some_inj.mp h] at hE
      have hmem := (pickEarliestResetAccount_spec _ _ _ hE).1
      exact (List.mem_filter.mp (List.mem_filter.mp
        (List.mem_filter.mp hmem).1).1).1

theorem setActiveAccount_map_email (st : ManagerState) (email : String) (now : Int) :
    (setActiveAccount st email now).data.accounts.map Account.email =
      st.data.accounts.map Account.email := by
  unfold setActiveAccount
  rcases h : getAccount st.data email with _ | a
  · rfl
  · exact map_email_updateFirst _ _ _ (fun x => rfl)

theorem activateBestAccount_mem (env : RequestEnv) (st : ManagerState)
    (excl : List String) (acct : Account) (st1 : ManagerState)
    (h : activateBestAccount env st excl = (some acct, st1)) :
    (getAccount st1.data acct.email).isSome = true := by
  simp only [activateBestAccount] at h
  rcases hp : pickBestAccount
      (refreshUsageIfStale env (clearExpiredExhaustion st env.now)
        (clearExpiredExhaustion st env.now).data.accounts).data.accounts
      (refreshUsageIfStale env (clearExpiredExhaustion st env.now)
        (clearExpiredExhaustion st env.now).data.accounts).usageCache
      excl env.now env.randIndex with _ | a2
  · rw [hp] at h
    simp at h
  · rw [hp] at h
    simp only [Prod.mk.injEq, Option.some_inj] at h
    obtain ⟨ha, hst⟩ := h
    subst hst
    rw [← ha]
    have hmem := pickBestAccount_mem _ _ _ _ _ _ hp
    have hsome : (getAccount (refreshUsageIfStale env (clearExpiredExhaustion st env.now)
        (clearExpiredExhaustion st env.now).data.accounts).data a2.email).isSome = true := by
      unfold getAccount
      rw [List.find?_isSome]
      exact ⟨a2, hmem, by simp⟩
    rw [getAccount_isSome_of_map_email _ _ a2.email
      (setActiveAccount_map_email _ a2.email env.now)]
    exact hsome

theorem handleQuotaExceeded_marks (env : RequestEnv) (st : ManagerState)
    (account : Account)
    (hmem : (getAccount st.data account.email).isSome = true) :
    ∃ a2 u, getAccount (handleQuotaExceeded env st account).data account.email =
        some a2 ∧ a2.quotaExhaustedUntil = some u := by
  have hmem2 : (getAccount (refreshUsageForAccount env st account true).1.data
      account.email).isSome = true := by
    rw [getAccount_isSome_of_map_email _ st.data account.email
      (refreshUsageForAccount_frame env st account true)]
    exact hmem
  rcases hga : getAccount (refreshUsageForAccount env st account true).1.data
      account.email with _ | a1
  · rw [hga] at hmem2; simp at hmem2
  · simp only [handleQuotaExceeded]
    exact ⟨_, _, markExhausted_marks _ account.email _ a1 hga, rfl⟩

/-- C1: when an attempt's upstream stream yields its first terminal event
as an error preceded only by non-terminal events `pre`, the wrapper retries
iff the message matches the quota heuristic, nothing was forwarded
(`pre = []`), and retry budget remains; a retry marks the account
quota-exceeded (`handleQuotaExceeded`), adds its email to the exclusion
set, forwards nothing, and continues with a fresh attempt; otherwise the
wrapper forwards `pre` and the error event (provenance rewritten to the
logical provider) and the request ends with no further attempts. -/
theorem streamWrapper_error_event_handling (env : RequestEnv)
    (st : ManagerState) (excl : List String) (r : Nat) (acct : Account)
    (st1 st2 : ManagerState) (tok : String) (b : Bool) (pre : List Ev)
    (msg prov : String) (rest : List Ev)
    (hact : activateBestAccount env st excl = (some acct, st1))
    (htok : ensureValidToken env st1 acct = (st2, .ok tok, b))
    (hstream : env.streams (MAX_ROTATION_RETRIES - r) =
      pre ++ ⟨EvKind.errorEv msg, prov⟩ :: rest)
    (hpre : ∀ e ∈ pre, (∀ m2, e.kind ≠ EvKind.errorEv m2) ∧ e.kind ≠ EvKind.doneEv) :
    ((isQuotaErrorMessage msg = true ∧ pre = [] ∧ 0 < r) →
      runFrom env (r + 1) st excl =
        prependAttempt acct.email
          (runFrom env r
            (handleQuotaExceeded env st2 ((getAccount st2.data acct.email).getD acct))
            (acct.email :: excl)) ∧
      (∃ a2 u, getAccount (handleQuotaExceeded env st2
            ((getAccount st2.data acct.email).getD acct)).data acct.email =
          some a2 ∧ a2.quotaExhaustedUntil = some u)) ∧
    (¬(isQuotaErrorMessage msg = true ∧ pre = [] ∧ 0 < r) →
      runFrom env (r + 1) st excl =
        ⟨pre.map (fun e => withProvider e env.modelProvider) ++
            [withProvider ⟨EvKind.errorEv msg, prov⟩ env.modelProvider],
          st2, 1, [acct.email], false⟩) := by
  have hmemSt2 : (getAccount st2.data acct.email).isSome = true := by
    have h1 := activateBestAccount_mem env st excl acct st1 hact
    have hmap := (ensureValidToken_frame env st1 acct).1
    rw [htok] at hmap
    have hmap2 : st2.data.accounts.map Account.email =
        st1.data.accounts.map Account.email := hmap
    rw [getAccount_isSome_of_map_email st2.data st1.data acct.email hmap2]
    exact h1
  constructor
  · rintro ⟨hq, hpre0, hr⟩
    subst hpre0
    have hcons := consumeInner_first_error env.modelProvider (decide (0 < r))
      [] msg prov rest (by simp)
    rw [if_pos ⟨hq, rfl, decide_eq_true hr⟩] at hcons
    rw [List.nil_append] at hcons hstream
    constructor
    · simp only [runFrom, hact, htok, hstream, hcons, prependAttempt,
        List.nil_append]
    · have ha2 : ((getAccount st2.data acct.email).getD acct).email = acct.email := by
        rcases hga : getAccount st2.data acct.email with _ | found
        · simp
        · simp only [hga, Option.getD_some]
          exact getAccount_email st2.data acct.email found hga
      have hmem3 : (getAccount st2.data
          ((getAccount st2.data acct.email).getD acct).email).isSome = true := by
        rw [ha2]; exact hmemSt2
      have := handleQuotaExceeded_marks env st2
        ((getAccount st2.data acct.email).getD acct) hmem3
      rw [ha2] at this
      exact this
  · intro hneg
    have hcond : ¬(isQuotaErrorMessage msg = true ∧ pre = [] ∧
        decide (0 < r) = true) := by
      rintro ⟨h1, h2, h3⟩
      exact hneg ⟨h1, h2, of_decide_eq_true h3⟩
    have hcons := consumeInner_first_error env.modelProvider (decide (0 < r))
      pre msg prov rest hpre
    rw [if_neg hcond] at hcons
    simp only [runFrom, hact, htok, hstream, hcons]

/-- Witness for C1: a quota error that follows partial output is forwarded
as-is with rewritten provenance and ends the request with no retry. -/
theorem streamWrapper_error_event_handling_witness :
    runFrom wrapEnv2 6 wrapState [] =
      ⟨[⟨.pieceEv 7, "multicodex"⟩, ⟨.errorEv "quota exceeded", "multicodex"⟩],
        wrapStateSel, 1, ["a"], false⟩ :=
  (streamWrapper_error_event_handling wrapEnv2 wrapState [] 5 wrapAcctA
      wrapStateSel wrapStateSel "t" false [⟨.pieceEv 7, "openai-codex"⟩]
      "quota exceeded" "openai-codex" []
      (by decide) rfl rfl
      (by
        intro e he
        rw [List.mem_singleton] at he
        subst he
        exact ⟨fun m2 => by simp, by simp⟩)).2
    (by rintro ⟨_, h2, _⟩; simp at h2)

-- ============================================================
-- Lemmas about the manual-override wrapper (spec-modelled)
-- ============================================================

theorem refreshFetch_manual (env : RequestEnv) (st : ManagerState) (a : Account) :
    (refreshFetch env st a).1.manualEmail = st.manualEmail := by
  unfold refreshFetch
  rcases h : ensureValidToken env st a with ⟨st1, m | t, b⟩
  · have hman := (ensureValidToken_frame env st a).2.2.2
    rw [h] at hman
    simpa using hman
  · have hman := (ensureValidToken_frame env st a).2.2.2
    rw [h] at hman
    rcases henv : env.usageFetch a.email with m | pr
    · simpa using hman
    · obtain ⟨p, s⟩ := pr
      simpa using hman

theorem refreshUsageForAccount_manual (env : RequestEnv) (st : ManagerState)
    (account : Account) (force : Bool) :
    (refreshUsageForAccount env st account force).1.manualEmail = st.manualEmail := by
  simp only [refreshUsageForAccount]
  rcases hl : lookupUsage st.usageCache
      ((getAccount st.data account.email).getD account).email with _ | c
  · simp only [hl]
    exact refreshFetch_manual env st _
  · simp only [hl]
    split_ifs with hc
    · rfl
    · exact refreshFetch_manual env st _

theorem markExhausted_manual (st : ManagerState) (email : String) (u : Int) :
    (markExhausted st email u).manualEmail = st.manualEmail := by
  unfold markExhausted
  rcases h : getAccount st.data email with _ | a <;> rfl

theorem handleQuotaExceeded_manual (env : RequestEnv) (st : ManagerState)
    (account : Account) :
    (handleQuotaExceeded env st account).manualEmail = st.manualEmail := by
  simp only [handleQuotaExceeded]
  rw [markExhausted_manual]
  exact refreshUsageForAccount_manual env st account true

/-- C4 (spec-modelled): when a manual override is pinned and currently
available, each attempt uses the pinned account with no call to automatic
selection and no usage refresh; after the pinned account's own pre-output
quota failure, the pin is cleared (so the manual source resolves to absent
and subsequent attempts fall back to `activateBestAccount`). -/
theorem manualOverride_wrapper (env : RequestEnv) (st : ManagerState)
    (excl : List String) (r : Nat) (e : String) (a : Account)
    (st2 : ManagerState) (tok : String) (b : Bool)
    (hpin : st.manualEmail = some e)
    (hacct : getAccount st.data e = some a)
    (havail : isAccountAvailable a env.now = true)
    (htok : ensureValidToken env st a = (st2, .ok tok, b)) :
    (∀ prov, env.streams (MAX_ROTATION_RETRIES - r) = [⟨EvKind.doneEv, prov⟩] →
      runFromManual env (r + 1) st excl =
        ⟨[withProvider ⟨EvKind.doneEv, prov⟩ env.modelProvider], st2, 1,
          [a.email], 0⟩ ∧
      st2.usageCache = st.usageCache) ∧
    (∀ msg prov rest, env.streams (MAX_ROTATION_RETRIES - r) =
        ⟨EvKind.errorEv msg, prov⟩ :: rest →
      isQuotaErrorMessage msg = true → 0 < r →
      runFromManual env (r + 1) st excl =
        prependAttemptManual a.email
          (runFromManual env r
            (clearManualAccount (handleQuotaExceeded env st2
              ((getAccount st2.data a.email).getD a)))
            (a.email :: excl)) ∧
      (clearManualAccount (handleQuotaExceeded env st2
          ((getAccount st2.data a.email).getD a))).manualEmail = none ∧
      getAvailableManualAccount (clearManualAccount (handleQuotaExceeded env st2
          ((getAccount st2.data a.email).getD a))) env.now = none) := by
  have hsel : getAvailableManualAccount st env.now = some a := by
    simp [getAvailableManualAccount, hpin, hacct, havail]
  have hcacheFrame := (ensureValidToken_frame env st a).2.1
  rw [htok] at hcacheFrame
  have hmanFrame := (ensureValidToken_frame env st a).2.2.2
  rw [htok] at hmanFrame
  have hemail : a.email = e := getAccount_email st.data e a hacct
  constructor
  · intro prov hstream
    constructor
    · have hcons : consumeInner env.modelProvider (decide (0 < r))
          [(⟨EvKind.doneEv, prov⟩ : Ev)] false =
          .endOut [withProvider ⟨EvKind.doneEv, prov⟩ env.modelProvider] := by
        simp [consumeInner]
      simp only [runFromManual, hsel, htok, hstream, hcons]
    · exact hcacheFrame
  · intro msg prov rest hstream hq hr
    have hman3 : (handleQuotaExceeded env st2
        ((getAccount st2.data a.email).getD a)).manualEmail = some a.email := by
      rw [handleQuotaExceeded_manual]
      have : st2.manualEmail = st.manualEmail := hmanFrame
      rw [this, hpin, hemail]
    have hcons := consumeInner_first_error env.modelProvider (decide (0 < r))
      [] msg prov rest (by simp)
    rw [if_pos ⟨hq, rfl, decide_eq_true hr⟩] at hcons
    rw [List.nil_append] at hcons
    refine ⟨?_, rfl, rfl⟩
    simp only [runFromManual, hsel, htok, hstream, hcons, hman3, if_pos,
      prependAttemptManual, List.nil_append]

/-- Witness for C4: the pinned account's pre-output quota failure clears
the pin and the request continues with automatic selection. -/
theorem manualOverride_wrapper_witness :
    runFromManual manEnv 6 manState [] =
      prependAttemptManual manAcct.email
        (runFromManual manEnv 5
          (clearManualAccount (handleQuotaExceeded manEnv manState
            ((getAccount manState.data manAcct.email).getD manAcct)))
          (manAcct.email :: [])) ∧
    (clearManualAccount (handleQuotaExceeded manEnv manState
        ((getAccount manState.data manAcct.email).getD manAcct))).manualEmail =
      none ∧
    getAvailableManualAccount (clearManualAccount (handleQuotaExceeded manEnv
        manState ((getAccount manState.data manAcct.email).getD manAcct)))
      manEnv.now = none :=
  (manualOverride_wrapper manEnv manState [] 5 "manual" manAcct manState "t"
      false rfl rfl (by decide) rfl).2
    "quota exceeded" "openai-codex" [] rfl (by decide) (by decide)
